import Mathlib

/-!
Population-scale iterated Prisoner's Dilemma (prisoners_dillemma.cpp)

A shallow embedding of the simulation in `src/prisoners_dillemma.cpp`:
the `Player` class, `getPayoff`, the population construction at the start
of `main` and the epoch loop of `main`, followed by theorems about them.

Modelling conventions.
* The energy of a player, the only `int` that grows during a run, is a
  32-bit value: `addEnergy` wraps its sum into `[-2^31, 2^31 - 1]`, the
  two's-complement result of the addition.  The other `int` values (ids,
  moves, counters, counts and their sums) are exact `Int` values; this
  agrees with the program whenever they are within the `int` range.
* A `double` is the rational it denotes.  The product `N * ratio` is the
  exact product rounded to the nearest binary64 value, ties to even (53
  significant bits, subnormal spacing `2^-1074`); overflow to infinity is
  not modelled.  The cast `(int)x` is truncation toward zero.
* `std::mt19937` is abstracted as the stream of raw values it delivers;
  `uniform_int_distribution<int>(a, b)` consumes one raw value and maps it
  into `[a, b]`.  Every sequence of in-range results is produced by some
  stream, so a statement over all streams covers every generator.
* `std::map<int, vector<int>>` is an association list with unique-key
  replacement; the program never iterates the map, so key order is not
  observable.
* The `while (true)` opponent selection loop is bounded by a fuel argument;
  running out of fuel is reported as `Fault.fuelExhausted`.
-/

set_option linter.dupNamespace false

namespace PrisonersDilemma

/-- Strategy of a player (the enum `Strategy`). -/
inductive Strategy
  | COOPERATION
  | BETRAYAL
  | HITBACK
  | WATCHER
  | RANDOM_STR
  deriving DecidableEq

/-- Random source standing for `std::mt19937`: the stream of raw values and
the number of values consumed so far. -/
structure Mt19937 where
  draws : Nat → Nat
  pos : Nat

/-- Drawing from `uniform_int_distribution<int> dist(a, b)` with generator `mt`:
the result lies in `[a, b]` (for `a ≤ b`) and the generator advances. -/
def uniformInt (a b : Int) (mt : Mt19937) : Int × Mt19937 :=
  (a + (mt.draws mt.pos : Int) % (b - a + 1), { mt with pos := mt.pos + 1 })

/-- Lookup in the history map (`map::find`): the first entry with the key. -/
def mapFind : List (Int × List Int) → Int → Option (List Int)
  | [], _ => none
  | (k, v) :: rest, key => if k = key then some v else mapFind rest key

/-- Store a value under a key of the history map (the write through the
reference returned by `map::operator[]`): replaces the entry of the key, or
adds one when the key is absent. -/
def mapStore (key : Int) (v : List Int) : List (Int × List Int) → List (Int × List Int)
  | [] => [(key, v)]
  | (k, w) :: rest => if k = key then (key, v) :: rest else (k, w) :: mapStore key v rest

/-- Value of a 32-bit `int` holding the integer `x` after an arithmetic
operation: reduction modulo `2^32` into `[-2^31, 2^31 - 1]`. -/
def wrapInt32 (x : Int) : Int := (x + 2147483648) % 4294967296 - 2147483648

/-- The class `Player`: identifier, strategy, energy, the player's own last
move and, per opponent id, the opponent's recent moves. -/
structure Player where
  id : Int
  strategy : Strategy
  energy : Int
  lastMove : Int
  opponentHistory : List (Int × List Int)
  deriving DecidableEq

namespace Player

/-- The constructor `Player(_id, _strategy, _energy)`: `lastMove` is 0 and the
history map is empty. -/
def Player (_id : Int) (_strategy : Strategy) (_energy : Int) : PrisonersDilemma.Player :=
  { id := _id, strategy := _strategy, energy := _energy, lastMove := 0, opponentHistory := [] }

/-- Getter `getId`. -/
def getId (p : PrisonersDilemma.Player) : Int := p.id

/-- Getter `getStrategy`. -/
def getStrategy (p : PrisonersDilemma.Player) : Strategy := p.strategy

/-- Getter `getEnergy`. -/
def getEnergy (p : PrisonersDilemma.Player) : Int := p.energy

/-- Method `addEnergy`: `energy += delta` on a 32-bit `int`. -/
def addEnergy (p : PrisonersDilemma.Player) (delta : Int) : PrisonersDilemma.Player :=
  { p with energy := wrapInt32 (p.energy + delta) }

/-- Getter `getLastMove`. -/
def getLastMove (p : PrisonersDilemma.Player) : Int := p.lastMove

/-- Method `setLastMove`. -/
def setLastMove (p : PrisonersDilemma.Player) (move : Int) : PrisonersDilemma.Player :=
  { p with lastMove := move }

/-- Method `updateOpponentInfo`: push the move at the back of the opponent's
history (created empty when absent) and erase the front element when the
size exceeds 5. -/
def updateOpponentInfo (p : PrisonersDilemma.Player) (opponentId oppMove : Int) :
    PrisonersDilemma.Player :=
  let hist := (mapFind p.opponentHistory opponentId).getD [] ++ [oppMove]
  let hist := if hist.length > 5 then hist.tail else hist
  { p with opponentHistory := mapStore opponentId hist p.opponentHistory }

/-- Method `getHistoryOfOpponent`: the stored history, or the empty vector
when the opponent id has no entry. -/
def getHistoryOfOpponent (p : PrisonersDilemma.Player) (opponentId : Int) : List Int :=
  match mapFind p.opponentHistory opponentId with
  | some hist => hist
  | none => []

/-- The counting loop of the WATCHER case: `(coopCount, betrayCount)` after
scanning the history from the front. -/
def watcherCount : List Int → Int × Int → Int × Int
  | [], c => c
  | m :: rest, c =>
    if m = 0 then watcherCount rest (c.1 + 1, c.2) else watcherCount rest (c.1, c.2 + 1)

/-- Method `decideMove`: the move played against `opponentId`, with the
generator after the call. -/
def decideMove (p : PrisonersDilemma.Player) (mt : Mt19937) (opponentId : Int) :
    Int × Mt19937 :=
  let historyOfOpponentMoves := p.getHistoryOfOpponent opponentId
  match p.strategy with
  | Strategy.COOPERATION => (0, mt)
  | Strategy.BETRAYAL => (1, mt)
  | Strategy.HITBACK =>
    if historyOfOpponentMoves.isEmpty then (0, mt)
    else (historyOfOpponentMoves.getLastD 0, mt)
  | Strategy.WATCHER =>
    let c := watcherCount historyOfOpponentMoves (0, 0)
    if c.2 > c.1 then (1, mt) else (0, mt)
  | Strategy.RANDOM_STR => uniformInt 0 1 mt

end Player

/-- The function `getPayoff`: energy deltas of the two sides of a match. -/
def getPayoff (moveA moveB : Int) : Int × Int :=
  if moveA = 0 ∧ moveB = 0 then (1, 1)
  else if moveA = 1 ∧ moveB = 1 then (-1, -1)
  else if moveA = 0 ∧ moveB = 1 then (-3, 3)
  else (3, -3)

/-- The global parameters of the program. -/
structure Config where
  N : Int
  initialEnergy : Int
  numEpoch : Int
  ratioCoop : ℚ
  ratioBetray : ℚ
  ratioHitback : ℚ
  ratioWatcher : ℚ
  ratioRandom : ℚ

/-- The values the globals are initialised with in the source. -/
def sourceConfig : Config :=
  { N := 100, initialEnergy := 100, numEpoch := 1000,
    ratioCoop := 0, ratioBetray := 0, ratioHitback := 1 / 4,
    ratioWatcher := 1 / 4, ratioRandom := 1 / 2 }

/-- The cast `(int)x` of a real value: truncation toward zero. -/
def castInt (x : ℚ) : Int := Int.tdiv x.num x.den

/-- Rounding of a rational to the nearest integer, ties to the even one. -/
def roundHalfEven (x : ℚ) : Int :=
  if x - ⌊x⌋ < 1 / 2 then ⌊x⌋
  else if 1 / 2 < x - ⌊x⌋ then ⌊x⌋ + 1
  else if ⌊x⌋ % 2 = 0 then ⌊x⌋ else ⌊x⌋ + 1

/-- Exponent of the spacing of the binary64 values around `x`: 53 significant
bits, and `2^-1074` in the subnormal range. -/
def ulpExponent (x : ℚ) : Int := max (Int.log 2 |x| - 52) (-1074)

/-- Rounding of a rational to the nearest binary64 value, ties to even (the
default rounding of a `double` operation).  Overflow is not modelled. -/
def roundDouble (x : ℚ) : ℚ :=
  (roundHalfEven (x / (2 : ℚ) ^ ulpExponent x) : ℚ) * (2 : ℚ) ^ ulpExponent x

/-- The `double` product `N * ratio` of an `int` (converted exactly) and a
`double`. -/
def mulDouble (n : Int) (ratio : ℚ) : ℚ := roundDouble ((n : ℚ) * ratio)

/-- Value of `countCoopP`. -/
def countCoopP (c : Config) : Int := castInt (mulDouble c.N c.ratioCoop)

/-- Value of `countBetrayP`. -/
def countBetrayP (c : Config) : Int := castInt (mulDouble c.N c.ratioBetray)

/-- Value of `countHitbackP`. -/
def countHitbackP (c : Config) : Int := castInt (mulDouble c.N c.ratioHitback)

/-- Value of `countWatcherP`. -/
def countWatcherP (c : Config) : Int := castInt (mulDouble c.N c.ratioWatcher)

/-- Value of `sumCount`. -/
def sumCount (c : Config) : Int :=
  countCoopP c + countBetrayP c + countHitbackP c + countWatcherP c
    + castInt (mulDouble c.N c.ratioRandom)

/-- Value of `countRandomP` after the remainder adjustment
`if (sumCount < N) countRandomP += (N - sumCount)`. -/
def countRandomP (c : Config) : Int :=
  if sumCount c < c.N then castInt (mulDouble c.N c.ratioRandom) + (c.N - sumCount c)
  else castInt (mulDouble c.N c.ratioRandom)

/-- One creation loop `for (int i = 0; i < count; i++)
players.push_back(Player(currentId++, s, initialEnergy))`, given the number
of iterations; the state is the vector and `currentId`. -/
def pushLoop (s : Strategy) (energy : Int) : Nat → List Player × Int → List Player × Int
  | 0, st => st
  | n + 1, st => pushLoop s energy n (st.1 ++ [Player.Player st.2 s energy], st.2 + 1)

/-- The five creation loops of `main`, in source order, from the empty
vector and `currentId = 0`.  A loop with a non-positive count does not
iterate. -/
def createPlayers (c : Config) : List Player :=
  let st : List Player × Int := ([], 0)
  let st := pushLoop Strategy.COOPERATION c.initialEnergy (countCoopP c).toNat st
  let st := pushLoop Strategy.BETRAYAL c.initialEnergy (countBetrayP c).toNat st
  let st := pushLoop Strategy.HITBACK c.initialEnergy (countHitbackP c).toNat st
  let st := pushLoop Strategy.WATCHER c.initialEnergy (countWatcherP c).toNat st
  let st := pushLoop Strategy.RANDOM_STR c.initialEnergy (countRandomP c).toNat st
  st.1

/-- Ways a run stops without a result: `std::length_error` thrown by
`players.reserve(N)` (uncaught, so the program aborts), or the opponent
selection loop not ending within the fuel. -/
inductive Fault
  | lengthError
  | fuelExhausted
  deriving DecidableEq

/-- Population construction of `main`.  `players.reserve(N)` converts `N` to
the unsigned size type, so a negative `N` exceeds `max_size()` and
`reserve` throws `std::length_error` before any player is created. -/
def initPlayers (c : Config) : Except Fault (List Player) :=
  if c.N < 0 then Except.error Fault.lengthError else Except.ok (createPlayers c)

/-- Element access `players[i]`; every index the program uses is in range. -/
def getPlayer (players : List Player) (i : Nat) : Player :=
  players.getD i (Player.Player 0 Strategy.COOPERATION 0)

/-- In-place method call `players[i].f(...)`. -/
def modifyPlayer (players : List Player) (i : Nat) (f : Player → Player) : List Player :=
  players.set i (f (getPlayer players i))

/-- The vector `aliveIndices`: indices of players with positive energy, in
increasing order. -/
def aliveIndices (players : List Player) : List Nat :=
  (List.range players.length).filter (fun i => decide ((getPlayer players i).getEnergy > 0))

/-- The opponent selection loop `while (true)`: draw `jIndex` from
`[0, size - 1]` until it differs from `k`. -/
def pickOpponent : Nat → Mt19937 → Int → Int → Except Fault (Int × Mt19937)
  | 0, _, _, _ => Except.error Fault.fuelExhausted
  | fuel + 1, mt, size, k =>
    let r := uniformInt 0 (size - 1) mt
    if r.1 ≠ k then Except.ok r else pickOpponent fuel r.2 size k

/-- The match between `players[i]` and `players[j]` (the statements after the
two energy checks of the loop body). -/
def playMatch (players : List Player) (mt : Mt19937) (i j : Nat) : List Player × Mt19937 :=
  let dI := (getPlayer players i).decideMove mt j
  let moveI := dI.1
  let dJ := (getPlayer players j).decideMove dI.2 i
  let moveJ := dJ.1
  let payoff := getPayoff moveI moveJ
  let players := modifyPlayer players i (fun p => p.addEnergy payoff.1)
  let players := modifyPlayer players j (fun p => p.addEnergy payoff.2)
  let players := modifyPlayer players i (fun p => p.updateOpponentInfo j moveJ)
  let players := modifyPlayer players j (fun p => p.updateOpponentInfo i moveI)
  let players := modifyPlayer players i (fun p => p.setLastMove moveI)
  let players := modifyPlayer players j (fun p => p.setLastMove moveJ)
  (players, dJ.2)

/-- Body of the loop over `k`: the turn of the player `aliveIndices[k]`. -/
def epochTurn (fuel : Nat) (alive : List Nat) (k : Nat) (st : List Player × Mt19937) :
    Except Fault (List Player × Mt19937) :=
  let i := alive.getD k 0
  if (getPlayer st.1 i).getEnergy ≤ 0 then Except.ok st
  else
    match pickOpponent fuel st.2 alive.length k with
    | Except.error e => Except.error e
    | Except.ok r =>
      let j := alive.getD r.1.toNat 0
      if (getPlayer st.1 j).getEnergy ≤ 0 then Except.ok (st.1, r.2)
      else Except.ok (playMatch st.1 r.2 i j)

/-- The loop `for (k = ...; k < aliveIndices.size(); k++)` over the listed
values of `k`. -/
def epochLoop (fuel : Nat) (alive : List Nat) :
    List Nat → List Player × Mt19937 → Except Fault (List Player × Mt19937)
  | [], st => Except.ok st
  | k :: ks, st =>
    match epochTurn fuel alive k st with
    | Except.error e => Except.error e
    | Except.ok st1 => epochLoop fuel alive ks st1

/-- One iteration of the epoch loop of `main`. -/
def runEpoch (fuel : Nat) (players : List Player) (mt : Mt19937) :
    Except Fault (List Player × Mt19937) :=
  let alive := aliveIndices players
  if alive.length < 2 then Except.ok (players, mt)
  else epochLoop fuel alive (List.range alive.length) (players, mt)

/-- The loop `for (epoch = 0; epoch < numEpoch; epoch++)`, given the number of
iterations. -/
def runEpochs (fuel : Nat) : Nat → List Player → Mt19937 → Except Fault (List Player × Mt19937)
  | 0, players, mt => Except.ok (players, mt)
  | n + 1, players, mt =>
    match runEpoch fuel players mt with
    | Except.error e => Except.error e
    | Except.ok st => runEpochs fuel n st.1 st.2

/-- The function `main` up to the final status display: construction, then
`numEpoch` epochs (none when `numEpoch` is not positive). -/
def simulate (fuel : Nat) (c : Config) (mt : Mt19937) : Except Fault (List Player × Mt19937) :=
  match initPlayers c with
  | Except.error e => Except.error e
  | Except.ok players => runEpochs fuel c.numEpoch.toNat players mt

/-- Energies of the players, by position. -/
def energies (players : List Player) : List Int := players.map Player.getEnergy

/-- A generator whose raw values are 0, 1, 2, ... -/
def countingMt : Mt19937 := { draws := fun n => n, pos := 0 }

/-! ## Auxiliary definitions used by the statements -/

/-- The binary64 value nearest to 0.29. -/
def double029 : ℚ := 5224175567749775 / 18014398509481984

/-- The binary64 value nearest to 0.71. -/
def double071 : ℚ := 799388933858263 / 1125899906842624

/-- The binary64 value nearest to 0.1. -/
def double01 : ℚ := 3602879701896397 / 36028797018963968

/-- Streams on which every opponent selection ends: from every position, for
every range size of at least 2 and every excluded index `k`, some later
draw differs from `k`. -/
def SelectionTerminates (draws : Nat → Nat) : Prop :=
  ∀ (pos : Nat) (size k : Int), 2 ≤ size →
    ∃ d, (uniformInt 0 (size - 1) { draws := draws, pos := pos + d }).1 ≠ k

/-- A player after a match in which it played `own`, the opponent `opp`
played `other`, and the player received `delta`. -/
def afterMatch (p : Player) (delta : Int) (opp other own : Int) : Player :=
  ((p.addEnergy delta).updateOpponentInfo opp other).setLastMove own

/-- The population of two cooperate-always players with energy 10. -/
def twoCooperators : List Player :=
  [Player.Player 0 Strategy.COOPERATION 10, Player.Player 1 Strategy.COOPERATION 10]

/-- The population of a cooperate-always player (position 0) and a
betray-always player (position 1), both with energy 10. -/
def cooperatorAndBetrayer : List Player :=
  [Player.Player 0 Strategy.COOPERATION 10, Player.Player 1 Strategy.BETRAYAL 10]

/-- Count of a strategy in the words of the specification: `floor(N * ratio)`. -/
def specCount (N : Int) (ratio : ℚ) : Int := ⌊(N : ℚ) * ratio⌋

/-- Sum of the five specification counts. -/
def specSum (c : Config) : Int :=
  specCount c.N c.ratioCoop + specCount c.N c.ratioBetray + specCount c.N c.ratioHitback
    + specCount c.N c.ratioWatcher + specCount c.N c.ratioRandom

/-- Count of a strategy from the product as the program computes it: the
integer part of the rounded `double` product. -/
def machineCount (N : Int) (ratio : ℚ) : Int := ⌊mulDouble N ratio⌋

/-- Sum of the five counts computed by the program. -/
def machineSum (c : Config) : Int :=
  machineCount c.N c.ratioCoop + machineCount c.N c.ratioBetray
    + machineCount c.N c.ratioHitback + machineCount c.N c.ratioWatcher
    + machineCount c.N c.ratioRandom

/-- The five products `N * ratio` are computed exactly: the exact product is a
`double`, so the `double` multiplication does not round. -/
def ProductsExact (c : Config) : Prop :=
  mulDouble c.N c.ratioCoop = (c.N : ℚ) * c.ratioCoop ∧
  mulDouble c.N c.ratioBetray = (c.N : ℚ) * c.ratioBetray ∧
  mulDouble c.N c.ratioHitback = (c.N : ℚ) * c.ratioHitback ∧
  mulDouble c.N c.ratioWatcher = (c.N : ℚ) * c.ratioWatcher ∧
  mulDouble c.N c.ratioRandom = (c.N : ℚ) * c.ratioRandom

/-- Ratios 0.5, 0.5, 0.5, 0, 0 (sum 1.5) on `N = 100`. -/
def excessConfig : Config :=
  { N := 100, initialEnergy := 100, numEpoch := 1000,
    ratioCoop := 1 / 2, ratioBetray := 1 / 2, ratioHitback := 1 / 2,
    ratioWatcher := 0, ratioRandom := 0 }

/-- A configuration with a negative ratio: `N = 2`, `ratioCoop = -0.5`, one epoch. -/
def negativeRatioConfig : Config :=
  { N := 2, initialEnergy := 10, numEpoch := 1,
    ratioCoop := -1 / 2, ratioBetray := 1, ratioHitback := 0,
    ratioWatcher := 0, ratioRandom := 0 }

/-- A configuration with a negative population size. -/
def negativeSizeConfig : Config :=
  { N := -2, initialEnergy := 10, numEpoch := 1,
    ratioCoop := 0, ratioBetray := 0, ratioHitback := 0,
    ratioWatcher := 0, ratioRandom := 1 }

/-- A configuration with a negative epoch count. -/
def negativeEpochConfig : Config :=
  { N := 2, initialEnergy := 10, numEpoch := -1,
    ratioCoop := 0, ratioBetray := 0, ratioHitback := 0,
    ratioWatcher := 0, ratioRandom := 1 }

/-- A sequence of calls `updateOpponentInfo(o, m)`, applied in order; a call is
the pair of opponent id and move. -/
def recordAll (p : Player) : List (Int × Int) → Player
  | [] => p
  | call :: rest => recordAll (p.updateOpponentInfo call.1 call.2) rest

/-- The moves recorded for opponent `o` by a sequence of calls, in call order. -/
def movesOf (o : Int) (calls : List (Int × Int)) : List Int :=
  (calls.filter (fun call => decide (call.1 = o))).map (fun call => call.2)

/-- The truncation step of `updateOpponentInfo`. -/
def trimFront (hist : List Int) : List Int :=
  if hist.length > 5 then hist.tail else hist

/-- Count of the entries of a history equal to a given move. -/
def countMove (move : Int) (hist : List Int) : Nat := hist.count move

/-- Number of players of a strategy in a population. -/
def countStrategy (s : Strategy) (players : List Player) : Nat :=
  (players.map Player.getStrategy).count s

/-- Ratios 0.1 for each strategy on `N = 100`; the stored ratio is the
`double` nearest to 0.1. -/
def tenthsConfig : Config :=
  { N := 100, initialEnergy := 100, numEpoch := 1000,
    ratioCoop := double01, ratioBetray := double01, ratioHitback := double01,
    ratioWatcher := double01, ratioRandom := double01 }

/-- Ratios 0.29 and 0.71 (as `double` values) for COOPERATION and BETRAYAL on
`N = 100`. -/
def roundedConfig : Config :=
  { N := 100, initialEnergy := 100, numEpoch := 1000,
    ratioCoop := double029, ratioBetray := double071, ratioHitback := 0,
    ratioWatcher := 0, ratioRandom := 0 }

/-- State of the creation loops in which every player built so far is in its
initial state and sits at the position given by its id. -/
def FreshState (e : Int) (st : List Player × Int) : Prop :=
  st.2 = st.1.length ∧
  ∀ p, p < st.1.length →
    (getPlayer st.1 p).getId = p ∧ (getPlayer st.1 p).getEnergy = e ∧
    (getPlayer st.1 p).getLastMove = 0 ∧ (getPlayer st.1 p).opponentHistory = []

/-- Number of living players: those with energy above 0. -/
def livingCount (players : List Player) : Nat :=
  players.countP (fun p => decide (p.getEnergy > 0))

/-- A population with a single living player among three. -/
def oneSurvivor : List Player :=
  [Player.Player 0 Strategy.BETRAYAL 0, Player.Player 1 Strategy.RANDOM_STR 7,
    Player.Player 2 Strategy.HITBACK (-2)]

/-- Move decided by `players[i]` against `players[j]` in a match started with
generator `mt`. -/
def initiatorMove (players : List Player) (mt : Mt19937) (i j : Nat) : Int :=
  ((getPlayer players i).decideMove mt j).1

/-- Move decided by `players[j]` against `players[i]` in the same match, with
the generator left by the initiator. -/
def opponentMove (players : List Player) (mt : Mt19937) (i j : Nat) : Int :=
  ((getPlayer players j).decideMove ((getPlayer players i).decideMove mt j).2 i).1

/-- Two populations with the same size and, position by position, the same
ids and strategies. -/
def SameIdentities (before after : List Player) : Prop :=
  after.length = before.length ∧
  ∀ q, (getPlayer after q).getId = (getPlayer before q).getId ∧
    (getPlayer after q).getStrategy = (getPlayer before q).getStrategy

/-- Players without energy keep their whole state (energy, last move,
histories, id, strategy) from one population to a later one. -/
def Frozen (before after : List Player) : Prop :=
  ∀ q, (getPlayer before q).getEnergy ≤ 0 → getPlayer after q = getPlayer before q

/-- A population with an eliminated player at position 0 and two living ones. -/
def withEliminated : List Player :=
  [Player.Player 0 Strategy.BETRAYAL 0, Player.Player 1 Strategy.COOPERATION 10,
    Player.Player 2 Strategy.BETRAYAL 10]

/-- Every position of the population holds an energy in `[lo, hi]`. -/
def EnergyBetween (lo hi : Int) (players : List Player) : Prop :=
  ∀ q, lo ≤ (getPlayer players q).getEnergy ∧ (getPlayer players q).getEnergy ≤ hi

/-- A configuration with initial energy 1: one COOPERATION and one BETRAYAL
player. -/
def lowEnergyConfig : Config :=
  { N := 2, initialEnergy := 1, numEpoch := 1,
    ratioCoop := 1 / 2, ratioBetray := 1 / 2, ratioHitback := 0,
    ratioWatcher := 0, ratioRandom := 0 }

/-- A configuration with the largest `int` as initial energy: two COOPERATION
players. -/
def maxEnergyConfig : Config :=
  { N := 2, initialEnergy := 2147483647, numEpoch := 1,
    ratioCoop := 1, ratioBetray := 0, ratioHitback := 0,
    ratioWatcher := 0, ratioRandom := 0 }

/-- A move is 0 (cooperate) or 1 (betray). -/
def BinaryMove (m : Int) : Prop := m = 0 ∨ m = 1

/-- The last move of the player and every entry of every stored history are
0 or 1. -/
def MovesBinary (p : Player) : Prop :=
  BinaryMove p.getLastMove ∧ ∀ e ∈ p.opponentHistory, ∀ m ∈ e.2, BinaryMove m

/-- A configuration of two RANDOM_STR players with energy 10. -/
def randomPairConfig : Config :=
  { N := 2, initialEnergy := 10, numEpoch := 3,
    ratioCoop := 0, ratioBetray := 0, ratioHitback := 0,
    ratioWatcher := 0, ratioRandom := 1 }

/-- Every position of the population holds a player with binary moves. -/
def AllMovesBinary (players : List Player) : Prop :=
  ∀ q, MovesBinary (getPlayer players q)

/-- One match of an epoch whose snapshot of living players is `alive`: the
two participants are the entries of two different snapshot indices, are
distinct, and both have positive energy when the match is played. -/
def SnapshotMatch (alive : List Nat) (before after : List Player) : Prop :=
  ∃ (mt : Mt19937) (k jIndex i j : Nat),
    alive[k]? = some i ∧ alive[jIndex]? = some j ∧ jIndex ≠ k ∧ i ≠ j ∧
    0 < (getPlayer before i).getEnergy ∧ 0 < (getPlayer before j).getEnergy ∧
    after = (playMatch before mt i j).1

/-- A sequence of matches of one epoch, leading from one population to another. -/
inductive MatchSequence (alive : List Nat) : List Player → List Player → Prop
  | done (ps : List Player) : MatchSequence alive ps ps
  | next (a b c : List Player) :
      SnapshotMatch alive a b → MatchSequence alive b c → MatchSequence alive a c

/-- Four players, the one at position 1 eliminated. -/
def fourPlayers : List Player :=
  [Player.Player 0 Strategy.COOPERATION 10, Player.Player 1 Strategy.BETRAYAL 0,
    Player.Player 2 Strategy.HITBACK 10, Player.Player 3 Strategy.WATCHER 10]

/-- Every stored history of every player has at most 5 entries. -/
def HistoriesBounded (players : List Player) : Prop :=
  ∀ q, ∀ e ∈ (getPlayer players q).opponentHistory, e.2.length ≤ 5

/-! ## Theorems -/

theorem wrapInt32_of_range (x : Int) (h1 : -2147483648 ≤ x) (h2 : x ≤ 2147483647) :
    wrapInt32 x = x := by
  unfold wrapInt32
  omega

theorem wrapInt32_range (x : Int) : -2147483648 ≤ wrapInt32 x ∧ wrapInt32 x ≤ 2147483647 := by
  unfold wrapInt32
  omega

theorem roundHalfEven_intCast (m : Int) : roundHalfEven (m : ℚ) = m := by
  unfold roundHalfEven
  simp

theorem roundHalfEven_nonneg (x : ℚ) (h : 0 ≤ x) : 0 ≤ roundHalfEven x := by
  have hf : 0 ≤ ⌊x⌋ := Int.floor_nonneg.mpr h
  unfold roundHalfEven
  split_ifs <;> omega

theorem roundDouble_nonneg (x : ℚ) (h : 0 ≤ x) : 0 ≤ roundDouble x := by
  unfold roundDouble
  have hp : (0 : ℚ) < (2 : ℚ) ^ ulpExponent x := zpow_pos (by norm_num) _
  have hr : 0 ≤ roundHalfEven (x / (2 : ℚ) ^ ulpExponent x) :=
    roundHalfEven_nonneg _ (div_nonneg h hp.le)
  exact mul_nonneg (by exact_mod_cast hr) hp.le

theorem mulDouble_nonneg (n : Int) (r : ℚ) (hn : 0 ≤ n) (hr : 0 ≤ r) : 0 ≤ mulDouble n r :=
  roundDouble_nonneg _ (mul_nonneg (by exact_mod_cast hn) hr)

theorem ulpExponent_eq (x : ℚ) (e : Int) (hx : 0 < x) (he : -1074 ≤ e)
    (h1 : (2 : ℚ) ^ (e + 52) ≤ x) (h2 : x < (2 : ℚ) ^ (e + 53)) : ulpExponent x = e := by
  unfold ulpExponent
  rw [abs_of_pos hx]
  have a1 : e + 52 ≤ Int.log 2 x := (Int.zpow_le_iff_le_log (by norm_num) hx).mp (by exact_mod_cast h1)
  have a2 : Int.log 2 x < e + 53 := (Int.lt_zpow_iff_log_lt (by norm_num) hx).mp (by exact_mod_cast h2)
  omega

/-- Evaluation of `roundDouble` on a positive value from its binade. -/
theorem roundDouble_eval (x : ℚ) (e m : Int) (hx : 0 < x) (he : -1074 ≤ e)
    (h1 : (2 : ℚ) ^ (e + 52) ≤ x) (h2 : x < (2 : ℚ) ^ (e + 53))
    (hm : roundHalfEven (x / (2 : ℚ) ^ e) = m) : roundDouble x = (m : ℚ) * (2 : ℚ) ^ e := by
  unfold roundDouble
  rw [ulpExponent_eq x e hx he h1 h2, hm]

theorem roundDouble_of_exponent_nonpos (x : ℚ) (n : Int) (hxn : x = (n : ℚ))
    (he : ulpExponent x ≤ 0) : roundDouble x = x := by
  unfold roundDouble
  obtain ⟨k, hk⟩ : ∃ k : ℕ, ulpExponent x = -(k : Int) :=
    ⟨(-ulpExponent x).toNat, by omega⟩
  rw [hk, zpow_neg, zpow_natCast, div_inv_eq_mul]
  have h2 : (2 : ℚ) ^ k ≠ 0 := pow_ne_zero _ (by norm_num)
  have hc : x * (2 : ℚ) ^ k = ((n * 2 ^ k : Int) : ℚ) := by
    rw [hxn]; push_cast; ring
  rw [hc, roundHalfEven_intCast, ← hc]
  field_simp

/-- An integer of magnitude below `2^53` is a binary64 value: rounding keeps it. -/
theorem roundDouble_intCast (n : Int) (h1 : -9007199254740992 < n) (h2 : n < 9007199254740992) :
    roundDouble (n : ℚ) = n := by
  apply roundDouble_of_exponent_nonpos _ n rfl
  unfold ulpExponent
  by_cases h0 : n = 0
  · subst h0
    simp [Int.log]
  · have hpos : (0 : ℚ) < |(n : ℚ)| := abs_pos.mpr (by exact_mod_cast h0)
    have hlt : |(n : ℚ)| < ((2 : ℕ) : ℚ) ^ (53 : Int) := by
      rw [abs_lt]
      constructor
      · have : ((-9007199254740992 : Int) : ℚ) < (n : ℚ) := by exact_mod_cast h1
        norm_num at this ⊢
        linarith
      · have : (n : ℚ) < ((9007199254740992 : Int) : ℚ) := by exact_mod_cast h2
        norm_num at this ⊢
        linarith
    have hlog : Int.log 2 |(n : ℚ)| < 53 := (Int.lt_zpow_iff_log_lt (by norm_num) hpos).mp hlt
    omega

theorem mulDouble_of_int (n : Int) (r : ℚ) (m : Int) (h : (n : ℚ) * r = (m : ℚ))
    (h1 : -9007199254740992 < m) (h2 : m < 9007199254740992) : mulDouble n r = m := by
  unfold mulDouble
  rw [h]
  exact roundDouble_intCast m h1 h2

theorem roundHalfEven_eval (x : ℚ) (f : Int) (hf : ⌊x⌋ = f) :
    (x - f < 1 / 2 → roundHalfEven x = f) ∧ (1 / 2 < x - f → roundHalfEven x = f + 1) := by
  unfold roundHalfEven
  rw [hf]
  constructor
  · intro h; rw [if_pos h]
  · intro h; rw [if_neg (by linarith), if_pos h]

theorem mulDouble_100_double029 :
    mulDouble 100 double029 = 8162774324609023 / 281474976710656 := by
  unfold mulDouble
  have hx : ((100 : Int) : ℚ) * double029 = 130604389193744375 / 4503599627370496 := by
    norm_num [double029]
  rw [hx]
  have hfl : ⌊(130604389193744375 / 4503599627370496 : ℚ) / (2 : ℚ) ^ (-48 : Int)⌋
      = 8162774324609023 := by
    rw [Int.floor_eq_iff]; norm_num
  have hm := (roundHalfEven_eval _ _ hfl).1 (by norm_num)
  rw [roundDouble_eval _ (-48) _ (by norm_num) (by norm_num) (by norm_num) (by norm_num) hm]
  norm_num

theorem mulDouble_100_double071 : mulDouble 100 double071 = 71 := by
  unfold mulDouble
  have hx : ((100 : Int) : ℚ) * double071 = 19984723346456575 / 281474976710656 := by
    norm_num [double071]
  rw [hx]
  have hfl : ⌊(19984723346456575 / 281474976710656 : ℚ) / (2 : ℚ) ^ (-46 : Int)⌋
      = 4996180836614143 := by
    rw [Int.floor_eq_iff]; norm_num
  have hm := (roundHalfEven_eval _ _ hfl).2 (by norm_num)
  rw [roundDouble_eval _ (-46) _ (by norm_num) (by norm_num) (by norm_num) (by norm_num) hm]
  norm_num

theorem mulDouble_100_double01 : mulDouble 100 double01 = 10 := by
  unfold mulDouble
  have hx : ((100 : Int) : ℚ) * double01 = 90071992547409925 / 9007199254740992 := by
    norm_num [double01]
  rw [hx]
  have hfl : ⌊(90071992547409925 / 9007199254740992 : ℚ) / (2 : ℚ) ^ (-49 : Int)⌋
      = 5629499534213120 := by
    rw [Int.floor_eq_iff]; norm_num
  have hm := (roundHalfEven_eval _ _ hfl).1 (by norm_num)
  rw [roundDouble_eval _ (-49) _ (by norm_num) (by norm_num) (by norm_num) (by norm_num) hm]
  norm_num

theorem pickOpponent_of_draw (d : Nat) (mt : Mt19937) (size k : Int)
    (h : (uniformInt 0 (size - 1) { mt with pos := mt.pos + d }).1 ≠ k) :
    ∃ r, pickOpponent (d + 1) mt size k = Except.ok r := by
  induction d generalizing mt with
  | zero =>
    unfold pickOpponent
    simp only
    have h1 : (uniformInt 0 (size - 1) mt).1 ≠ k := h
    rw [if_pos h1]
    exact ⟨_, rfl⟩
  | succ n ih =>
    unfold pickOpponent
    simp only
    by_cases h1 : (uniformInt 0 (size - 1) mt).1 ≠ k
    · rw [if_pos h1]
      exact ⟨_, rfl⟩
    · rw [if_neg h1]
      apply ih
      have e : ({ (uniformInt 0 (size - 1) mt).2 with
          pos := (uniformInt 0 (size - 1) mt).2.pos + n } : Mt19937)
          = { mt with pos := mt.pos + (n + 1) } := by
        simp only [uniformInt]
        congr 1
        omega
      rw [e]
      exact h

theorem pickOpponent_fuel_mono (fuel extra : Nat) (mt : Mt19937) (size k : Int)
    (r : Int × Mt19937) (h : pickOpponent fuel mt size k = Except.ok r) :
    pickOpponent (fuel + extra) mt size k = Except.ok r := by
  induction fuel generalizing mt with
  | zero => simp [pickOpponent] at h
  | succ n ih =>
    have e : n + 1 + extra = (n + extra) + 1 := by omega
    rw [e]
    unfold pickOpponent at h ⊢
    simp only at h ⊢
    split
    · rename_i h1
      rw [if_pos h1] at h
      exact h
    · rename_i h1
      rw [if_neg h1] at h
      exact ih _ h

theorem epochTurn_fuel_mono (fuel extra : Nat) (alive : List Nat) (k : Nat)
    (st res : List Player × Mt19937) (h : epochTurn fuel alive k st = Except.ok res) :
    epochTurn (fuel + extra) alive k st = Except.ok res := by
  unfold epochTurn at h ⊢
  simp only at h ⊢
  split
  · rename_i h1
    rw [if_pos h1] at h
    exact h
  · rename_i h1
    rw [if_neg h1] at h
    cases hp : pickOpponent fuel st.2 alive.length k with
    | error e => rw [hp] at h; cases h
    | ok r =>
      rw [hp] at h
      rw [pickOpponent_fuel_mono fuel extra _ _ _ r hp]
      exact h

theorem epochLoop_fuel_mono (fuel extra : Nat) (alive ks : List Nat)
    (st res : List Player × Mt19937) (h : epochLoop fuel alive ks st = Except.ok res) :
    epochLoop (fuel + extra) alive ks st = Except.ok res := by
  induction ks generalizing st with
  | nil => exact h
  | cons k ks ih =>
    unfold epochLoop at h ⊢
    cases ht : epochTurn fuel alive k st with
    | error e => rw [ht] at h; cases h
    | ok st1 =>
      rw [ht] at h
      rw [epochTurn_fuel_mono fuel extra alive k st st1 ht]
      exact ih _ h

theorem runEpoch_fuel_mono (fuel extra : Nat) (players : List Player) (mt : Mt19937)
    (res : List Player × Mt19937) (h : runEpoch fuel players mt = Except.ok res) :
    runEpoch (fuel + extra) players mt = Except.ok res := by
  unfold runEpoch at h ⊢
  simp only at h ⊢
  split
  · rename_i h1
    rw [if_pos h1] at h
    exact h
  · rename_i h1
    rw [if_neg h1] at h
    exact epochLoop_fuel_mono fuel extra _ _ _ _ h

/-- The fuel only bounds the selection loops: a run that completes with some
fuel completes with the same result with any larger fuel. -/
theorem runEpochs_fuel_mono (fuel extra n : Nat) (players : List Player) (mt : Mt19937)
    (res : List Player × Mt19937) (h : runEpochs fuel n players mt = Except.ok res) :
    runEpochs (fuel + extra) n players mt = Except.ok res := by
  induction n generalizing players mt with
  | zero => exact h
  | succ n ih =>
    unfold runEpochs at h ⊢
    cases he : runEpoch fuel players mt with
    | error e => rw [he] at h; cases h
    | ok st =>
      rw [he] at h
      rw [runEpoch_fuel_mono fuel extra players mt st he]
      exact ih _ _ h

theorem pickOpponent_draws (fuel : Nat) (mt : Mt19937) (size k : Int) (r : Int × Mt19937)
    (h : pickOpponent fuel mt size k = Except.ok r) : r.2.draws = mt.draws := by
  induction fuel generalizing mt with
  | zero => simp [pickOpponent] at h
  | succ n ih =>
    unfold pickOpponent at h
    simp only at h
    split at h
    · cases h; rfl
    · exact (ih _ h).trans rfl

theorem decideMove_draws (p : Player) (mt : Mt19937) (o : Int) :
    (p.decideMove mt o).2.draws = mt.draws := by
  unfold Player.decideMove
  simp only
  cases p.strategy <;> simp only [uniformInt] <;> split <;> rfl

theorem playMatch_draws (players : List Player) (mt : Mt19937) (i j : Nat) :
    (playMatch players mt i j).2.draws = mt.draws := by
  simp only [playMatch, decideMove_draws]

theorem epochTurn_draws (fuel : Nat) (alive : List Nat) (k : Nat)
    (st res : List Player × Mt19937) (h : epochTurn fuel alive k st = Except.ok res) :
    res.2.draws = st.2.draws := by
  unfold epochTurn at h
  simp only at h
  split at h
  · cases h; rfl
  · cases hp : pickOpponent fuel st.2 alive.length k with
    | error e => rw [hp] at h; cases h
    | ok r =>
      rw [hp] at h
      have hd := pickOpponent_draws _ _ _ _ _ hp
      simp only at h
      split at h
      · cases h; exact hd
      · cases h; rw [playMatch_draws]; exact hd

theorem epochTurn_total (alive : List Nat) (k : Nat) (st : List Player × Mt19937)
    (hlen : 2 ≤ alive.length) (hfair : SelectionTerminates st.2.draws) :
    ∃ fuel res, epochTurn fuel alive k st = Except.ok res := by
  obtain ⟨d, hd⟩ := hfair st.2.pos alive.length k (by exact_mod_cast hlen)
  obtain ⟨r, hr⟩ := pickOpponent_of_draw d st.2 alive.length k hd
  refine ⟨d + 1, ?_⟩
  unfold epochTurn
  simp only [hr]
  split
  · exact ⟨_, rfl⟩
  · split <;> exact ⟨_, rfl⟩

theorem epochLoop_total (alive ks : List Nat) (st : List Player × Mt19937)
    (hlen : 2 ≤ alive.length) (hfair : SelectionTerminates st.2.draws) :
    ∃ fuel res, epochLoop fuel alive ks st = Except.ok res ∧ res.2.draws = st.2.draws := by
  induction ks generalizing st with
  | nil => exact ⟨0, st, rfl, rfl⟩
  | cons k ks ih =>
    obtain ⟨f1, st1, h1⟩ := epochTurn_total alive k st hlen hfair
    have hd1 := epochTurn_draws _ _ _ _ _ h1
    obtain ⟨f2, res, h2, hd2⟩ := ih st1 (by rw [hd1]; exact hfair)
    refine ⟨f1 + f2, res, ?_, by rw [hd2, hd1]⟩
    unfold epochLoop
    rw [epochTurn_fuel_mono f1 f2 alive k st st1 h1]
    have := epochLoop_fuel_mono f2 f1 alive ks st1 res h2
    rw [Nat.add_comm] at this
    exact this

theorem runEpoch_total (players : List Player) (mt : Mt19937)
    (hfair : SelectionTerminates mt.draws) :
    ∃ fuel res, runEpoch fuel players mt = Except.ok res ∧ res.2.draws = mt.draws := by
  unfold runEpoch
  simp only
  by_cases h : (aliveIndices players).length < 2
  · simp only [if_pos h]
    exact ⟨0, _, rfl, rfl⟩
  · simp only [if_neg h]
    exact epochLoop_total _ _ (players, mt) (by omega) hfair

/-- On a stream on which every opponent selection ends, any number of epochs
completes for some fuel. -/
theorem runEpochs_total (n : Nat) (players : List Player) (mt : Mt19937)
    (hfair : SelectionTerminates mt.draws) :
    ∃ fuel res, runEpochs fuel n players mt = Except.ok res := by
  induction n generalizing players mt with
  | zero => exact ⟨0, _, rfl⟩
  | succ n ih =>
    obtain ⟨f1, st1, h1, hd1⟩ := runEpoch_total players mt hfair
    obtain ⟨f2, res, h2⟩ := ih st1.1 st1.2 (by rw [hd1]; exact hfair)
    refine ⟨f1 + f2, res, ?_⟩
    unfold runEpochs
    rw [runEpoch_fuel_mono f1 f2 players mt st1 h1]
    have := runEpochs_fuel_mono f2 f1 n st1.1 st1.2 res h2
    rw [Nat.add_comm] at this
    exact this

theorem countingMt_selectionTerminates : SelectionTerminates countingMt.draws := by
  intro pos size k hsize
  by_cases h0 : (uniformInt 0 (size - 1) { draws := countingMt.draws, pos := pos + 0 }).1 ≠ k
  · exact ⟨0, h0⟩
  · refine ⟨1, ?_⟩
    simp only [uniformInt, countingMt, ne_eq, not_not, zero_add, sub_zero, add_zero,
      sub_add_cancel] at h0 ⊢
    intro h1
    have h2 : ((pos + 1 : Nat) : Int) % size = (pos : Int) % size := by rw [h0, h1]
    rw [Int.emod_eq_emod_iff_emod_sub_eq_zero] at h2
    push_cast at h2
    have h3 : ((pos : Int) + 1 - pos) = 1 := by ring
    rw [h3, Int.emod_eq_of_lt (by omega) (by omega)] at h2
    exact one_ne_zero h2

theorem uniformInt_range (a b : Int) (mt : Mt19937) (h : a ≤ b) :
    a ≤ (uniformInt a b mt).1 ∧ (uniformInt a b mt).1 ≤ b := by
  unfold uniformInt
  have h1 : (0 : Int) < b - a + 1 := by omega
  have h2 := Int.emod_nonneg (mt.draws mt.pos : Int) (ne_of_gt h1)
  have h3 := Int.emod_lt_of_pos (mt.draws mt.pos : Int) h1
  constructor <;> simp only <;> omega

theorem pickOpponent_ok (fuel : Nat) (mt : Mt19937) (size k : Int) (r : Int × Mt19937)
    (hsize : 0 < size) (h : pickOpponent fuel mt size k = Except.ok r) :
    r.1 ≠ k ∧ 0 ≤ r.1 ∧ r.1 < size := by
  induction fuel generalizing mt with
  | zero => simp [pickOpponent] at h
  | succ n ih =>
    unfold pickOpponent at h
    simp only at h
    split at h
    · rename_i hne
      have hr := uniformInt_range 0 (size - 1) mt (by omega)
      cases h
      refine ⟨hne, hr.1, by omega⟩
    · exact ih _ h

theorem playMatch_pair_01 (p0 p1 : Player) (mt : Mt19937) :
    playMatch [p0, p1] mt 0 1 =
      ([((p0.addEnergy (getPayoff (p0.decideMove mt 1).1 (p1.decideMove (p0.decideMove mt 1).2 0).1).1).updateOpponentInfo 1
            (p1.decideMove (p0.decideMove mt 1).2 0).1).setLastMove (p0.decideMove mt 1).1,
        ((p1.addEnergy (getPayoff (p0.decideMove mt 1).1 (p1.decideMove (p0.decideMove mt 1).2 0).1).2).updateOpponentInfo 0
            (p0.decideMove mt 1).1).setLastMove (p1.decideMove (p0.decideMove mt 1).2 0).1],
        (p1.decideMove (p0.decideMove mt 1).2 0).2) := by
  simp [playMatch, modifyPlayer, getPlayer]

theorem playMatch_pair_10 (p0 p1 : Player) (mt : Mt19937) :
    playMatch [p0, p1] mt 1 0 =
      ([((p0.addEnergy (getPayoff (p1.decideMove mt 0).1 (p0.decideMove (p1.decideMove mt 0).2 1).1).2).updateOpponentInfo 1
            (p1.decideMove mt 0).1).setLastMove (p0.decideMove (p1.decideMove mt 0).2 1).1,
        ((p1.addEnergy (getPayoff (p1.decideMove mt 0).1 (p0.decideMove (p1.decideMove mt 0).2 1).1).1).updateOpponentInfo 0
            (p0.decideMove (p1.decideMove mt 0).2 1).1).setLastMove (p1.decideMove mt 0).1],
        (p0.decideMove (p1.decideMove mt 0).2 1).2) := by
  simp [playMatch, modifyPlayer, getPlayer]

theorem afterMatch_strategy (p : Player) (delta opp other own : Int) :
    (afterMatch p delta opp other own).strategy = p.strategy := rfl

theorem afterMatch_energy (p : Player) (delta opp other own : Int) :
    (afterMatch p delta opp other own).energy = wrapInt32 (p.energy + delta) := rfl

theorem aliveIndices_pair (p0 p1 : Player) (h0 : 0 < p0.energy) (h1 : 0 < p1.energy) :
    aliveIndices [p0, p1] = [0, 1] := by
  simp [aliveIndices, getPlayer, Player.getEnergy, List.range, List.range.loop, List.filter, h0, h1]

theorem epochTurn_pair_0 (fuel : Nat) (p0 p1 : Player) (mt : Mt19937) (m0 m1 : Int)
    (st : List Player × Mt19937)
    (hd0 : ∀ g o, p0.decideMove g o = (m0, g)) (hd1 : ∀ g o, p1.decideMove g o = (m1, g))
    (h0 : 0 < p0.energy) (h1 : 0 < p1.energy)
    (h : epochTurn fuel [0, 1] 0 ([p0, p1], mt) = Except.ok st) :
    st.1 = [afterMatch p0 (getPayoff m0 m1).1 1 m1 m0, afterMatch p1 (getPayoff m0 m1).2 0 m0 m1] := by
  unfold epochTurn at h
  simp only [List.getD_cons_zero, getPlayer, Player.getEnergy, List.length_cons, List.length_nil] at h
  rw [if_neg (by omega)] at h
  split at h
  · cases h
  · rename_i r hr
    have hp := pickOpponent_ok fuel mt _ _ r (by norm_num) hr
    have hr1 : r.1 = 1 := by
      have := hp.1; have := hp.2.1; have := hp.2.2
      push_cast at *
      omega
    simp only [hr1] at h
    simp at h
    rw [if_neg (by omega)] at h
    cases h
    rw [playMatch_pair_01]
    simp [hd0, hd1, afterMatch]

theorem epochTurn_pair_1 (fuel : Nat) (p0 p1 : Player) (mt : Mt19937) (m0 m1 : Int)
    (st : List Player × Mt19937)
    (hd0 : ∀ g o, p0.decideMove g o = (m0, g)) (hd1 : ∀ g o, p1.decideMove g o = (m1, g))
    (h0 : 0 < p0.energy) (h1 : 0 < p1.energy)
    (h : epochTurn fuel [0, 1] 1 ([p0, p1], mt) = Except.ok st) :
    st.1 = [afterMatch p0 (getPayoff m1 m0).2 1 m1 m0, afterMatch p1 (getPayoff m1 m0).1 0 m0 m1] := by
  unfold epochTurn at h
  simp only [getPlayer, Player.getEnergy, List.length_cons, List.length_nil] at h
  simp only [List.getD_cons_succ, List.getD_cons_zero] at h
  rw [if_neg (by omega)] at h
  split at h
  · cases h
  · rename_i r hr
    have hp := pickOpponent_ok fuel mt _ _ r (by norm_num) hr
    have hr1 : r.1 = 0 := by
      have := hp.1; have := hp.2.1; have := hp.2.2
      push_cast at *
      omega
    simp only [hr1] at h
    simp at h
    rw [if_neg (by omega)] at h
    cases h
    rw [playMatch_pair_10]
    simp [hd0, hd1, afterMatch]

theorem decideMove_cooperation (p : Player) (h : p.strategy = Strategy.COOPERATION)
    (g : Mt19937) (o : Int) : p.decideMove g o = (0, g) := by
  simp [Player.decideMove, h]

theorem decideMove_betrayal (p : Player) (h : p.strategy = Strategy.BETRAYAL)
    (g : Mt19937) (o : Int) : p.decideMove g o = (1, g) := by
  simp [Player.decideMove, h]

/-- One epoch on a population of two living players whose strategies always
play the fixed moves `m0` and `m1`: both turns are played (the first match
must leave both alive), so each player receives two payoffs, each added
on a 32-bit `int`. -/
theorem runEpoch_pair (fuel : Nat) (p0 p1 : Player) (mt : Mt19937) (m0 m1 : Int)
    (st : List Player × Mt19937)
    (hd0 : ∀ q : Player, q.strategy = p0.strategy → ∀ g o, q.decideMove g o = (m0, g))
    (hd1 : ∀ q : Player, q.strategy = p1.strategy → ∀ g o, q.decideMove g o = (m1, g))
    (h0 : 0 < p0.energy) (h1 : 0 < p1.energy)
    (h0a : 0 < wrapInt32 (p0.energy + (getPayoff m0 m1).1))
    (h1a : 0 < wrapInt32 (p1.energy + (getPayoff m0 m1).2))
    (h : runEpoch fuel [p0, p1] mt = Except.ok st) :
    ∃ q0 q1, st.1 = [q0, q1] ∧ q0.strategy = p0.strategy ∧ q1.strategy = p1.strategy ∧
      q0.energy = wrapInt32 (wrapInt32 (p0.energy + (getPayoff m0 m1).1) + (getPayoff m1 m0).2) ∧
      q1.energy
        = wrapInt32 (wrapInt32 (p1.energy + (getPayoff m0 m1).2) + (getPayoff m1 m0).1) := by
  unfold runEpoch at h
  simp only [aliveIndices_pair p0 p1 h0 h1, List.length_cons, List.length_nil] at h
  rw [if_neg (by omega)] at h
  have hrange : List.range (0 + 1 + 1) = [0, 1] := by decide
  rw [hrange] at h
  unfold epochLoop at h
  split at h
  · cases h
  · rename_i st1 hst1
    have e1 := epochTurn_pair_0 fuel p0 p1 mt m0 m1 st1 (hd0 p0 rfl) (hd1 p1 rfl) h0 h1 hst1
    unfold epochLoop at h
    split at h
    · cases h
    · rename_i st2 hst2
      have hst1eq : st1 = ([afterMatch p0 (getPayoff m0 m1).1 1 m1 m0,
          afterMatch p1 (getPayoff m0 m1).2 0 m0 m1], st1.2) := by
        rw [← e1]
      rw [hst1eq] at hst2
      have e2 := epochTurn_pair_1 fuel _ _ st1.2 m0 m1 st2
        (hd0 _ (afterMatch_strategy _ _ _ _ _)) (hd1 _ (afterMatch_strategy _ _ _ _ _))
        (by rw [afterMatch_energy]; exact h0a) (by rw [afterMatch_energy]; exact h1a) hst2
      unfold epochLoop at h
      cases h
      exact ⟨_, _, e2, rfl, rfl, rfl, rfl⟩

theorem runEpoch_cooperators (fuel : Nat) (p0 p1 : Player) (mt : Mt19937)
    (st : List Player × Mt19937)
    (hs0 : p0.strategy = Strategy.COOPERATION) (hs1 : p1.strategy = Strategy.COOPERATION)
    (h0 : 0 < p0.energy) (h1 : 0 < p1.energy)
    (h0b : p0.energy ≤ 1000) (h1b : p1.energy ≤ 1000)
    (h : runEpoch fuel [p0, p1] mt = Except.ok st) :
    ∃ q0 q1, st.1 = [q0, q1] ∧ q0.strategy = Strategy.COOPERATION ∧
      q1.strategy = Strategy.COOPERATION ∧
      q0.energy = p0.energy + 2 ∧ q1.energy = p1.energy + 2 := by
  have hp : getPayoff 0 0 = (1, 1) := rfl
  have w0 : wrapInt32 (p0.energy + 1) = p0.energy + 1 :=
    wrapInt32_of_range _ (by omega) (by omega)
  have w1 : wrapInt32 (p1.energy + 1) = p1.energy + 1 :=
    wrapInt32_of_range _ (by omega) (by omega)
  obtain ⟨q0, q1, e, s0, s1, e0, e1⟩ := runEpoch_pair fuel p0 p1 mt 0 0 st
    (fun q hq => decideMove_cooperation q (hq.trans hs0))
    (fun q hq => decideMove_cooperation q (hq.trans hs1)) h0 h1
    (by rw [hp]; simp only; rw [w0]; omega) (by rw [hp]; simp only; rw [w1]; omega) h
  refine ⟨q0, q1, e, s0.trans hs0, s1.trans hs1, ?_, ?_⟩
  · rw [e0, hp]; simp only
    rw [w0, wrapInt32_of_range _ (by omega) (by omega)]; omega
  · rw [e1, hp]; simp only
    rw [w1, wrapInt32_of_range _ (by omega) (by omega)]; omega

theorem two_cooperators_energies (fuel : Nat) (mt : Mt19937) (st : List Player × Mt19937)
    (h : runEpochs fuel 3 twoCooperators mt = Except.ok st) :
    energies st.1 = [16, 16] := by
  unfold runEpochs at h
  split at h
  · cases h
  · rename_i s1 hs1
    obtain ⟨a0, a1, ea, sa0, sa1, ea0, ea1⟩ := runEpoch_cooperators fuel _ _ mt s1 rfl rfl
      (by decide) (by decide) (by decide) (by decide) hs1
    unfold runEpochs at h
    rw [ea] at h
    split at h
    · cases h
    · rename_i s2 hs2
      obtain ⟨b0, b1, eb, sb0, sb1, eb0, eb1⟩ := runEpoch_cooperators fuel _ _ _ s2 sa0 sa1
        (by rw [ea0]; decide) (by rw [ea1]; decide) (by rw [ea0]; decide) (by rw [ea1]; decide)
        hs2
      unfold runEpochs at h
      rw [eb] at h
      split at h
      · cases h
      · rename_i s3 hs3
        obtain ⟨c0, c1, ec, sc0, sc1, ec0, ec1⟩ := runEpoch_cooperators fuel _ _ _ s3 sb0 sb1
          (by rw [eb0, ea0]; decide) (by rw [eb1, ea1]; decide)
          (by rw [eb0, ea0]; decide) (by rw [eb1, ea1]; decide) hs3
        unfold runEpochs at h
        cases h
        rw [ec]
        simp only [energies, List.map, Player.getEnergy]
        rw [ec0, ec1, eb0, eb1, ea0, ea1]
        rfl

/-- C1 (as the code behaves): two cooperate-always players with energy 10.
Whenever three epochs of the main loop complete (the opponent selections
end within the fuel), both energies are exactly 16, because each epoch
plays two matches (each player initiates one) and each match pays (+1, +1);
and on every random source on which opponent selection ends, the three
epochs do complete for some fuel, with energies 16 and 16. -/
theorem two_cooperators_three_epochs (mt : Mt19937) :
    (∀ fuel st, runEpochs fuel 3 twoCooperators mt = Except.ok st → energies st.1 = [16, 16]) ∧
    (SelectionTerminates mt.draws →
      ∃ fuel st, runEpochs fuel 3 twoCooperators mt = Except.ok st ∧
        energies st.1 = [16, 16]) := by
  refine ⟨fun fuel st h => two_cooperators_energies fuel mt st h, fun hfair => ?_⟩
  obtain ⟨fuel, st, h⟩ := runEpochs_total 3 twoCooperators mt hfair
  exact ⟨fuel, st, h, two_cooperators_energies fuel mt st h⟩

/-- Witness for C1: on the counting generator the three epochs complete with
fuel 2, and the generator is one on which opponent selection ends. -/
theorem two_cooperators_three_epochs_witness :
    (∃ st, runEpochs 2 3 twoCooperators countingMt = Except.ok st ∧
      energies st.1 = [16, 16]) ∧
    (∃ fuel st, runEpochs fuel 3 twoCooperators countingMt = Except.ok st ∧
      energies st.1 = [16, 16]) :=
  ⟨⟨_, rfl, (two_cooperators_three_epochs countingMt).1 2 _ rfl⟩,
    (two_cooperators_three_epochs countingMt).2 countingMt_selectionTerminates⟩

/-- C1 as stated fails: on the counting generator three epochs complete and
the energies are 16 and 16, not 13 and 13. -/
theorem two_cooperators_not_thirteen :
    ∃ st, runEpochs 2 3 twoCooperators countingMt = Except.ok st ∧
      energies st.1 = [16, 16] ∧ energies st.1 ≠ [13, 13] :=
  ⟨_, rfl, by decide, by decide⟩

theorem cooperator_betrayer_energies (fuel : Nat) (mt : Mt19937) (st : List Player × Mt19937)
    (h : runEpochs fuel 1 cooperatorAndBetrayer mt = Except.ok st) :
    energies st.1 = [4, 16] := by
  unfold runEpochs at h
  split at h
  · cases h
  · rename_i s1 hs1
    obtain ⟨a0, a1, ea, -, -, ea0, ea1⟩ := runEpoch_pair fuel _ _ mt 0 1 s1
      (fun q hq => decideMove_cooperation q hq)
      (fun q hq => decideMove_betrayal q hq)
      (by decide) (by decide) (by decide) (by decide) hs1
    unfold runEpochs at h
    cases h
    rw [ea]
    simp only [energies, List.map, Player.getEnergy]
    rw [ea0, ea1]
    rfl

/-- C2 (as the code behaves): a cooperate-always player at position 0 and a
betray-always player at position 1, both with energy 10.  Whenever one
epoch of the main loop completes, the cooperator has energy 4 and the
betrayer 16, because the epoch plays two matches (each player initiates
one) and each pays -3 to the cooperator and +3 to the betrayer; and on
every random source on which opponent selection ends, the epoch does
complete for some fuel, with these energies. -/
theorem cooperator_betrayer_one_epoch (mt : Mt19937) :
    (∀ fuel st, runEpochs fuel 1 cooperatorAndBetrayer mt = Except.ok st →
      energies st.1 = [4, 16]) ∧
    (SelectionTerminates mt.draws →
      ∃ fuel st, runEpochs fuel 1 cooperatorAndBetrayer mt = Except.ok st ∧
        energies st.1 = [4, 16]) := by
  refine ⟨fun fuel st h => cooperator_betrayer_energies fuel mt st h, fun hfair => ?_⟩
  obtain ⟨fuel, st, h⟩ := runEpochs_total 1 cooperatorAndBetrayer mt hfair
  exact ⟨fuel, st, h, cooperator_betrayer_energies fuel mt st h⟩

/-- Witness for C2: on the counting generator the epoch completes with fuel 2,
and the generator is one on which opponent selection ends. -/
theorem cooperator_betrayer_one_epoch_witness :
    (∃ st, runEpochs 2 1 cooperatorAndBetrayer countingMt = Except.ok st ∧
      energies st.1 = [4, 16]) ∧
    (∃ fuel st, runEpochs fuel 1 cooperatorAndBetrayer countingMt = Except.ok st ∧
      energies st.1 = [4, 16]) :=
  ⟨⟨_, rfl, (cooperator_betrayer_one_epoch countingMt).1 2 _ rfl⟩,
    (cooperator_betrayer_one_epoch countingMt).2 countingMt_selectionTerminates⟩

/-- C2 as stated fails: on the counting generator one epoch completes and the
energies are 4 and 16, not 7 and 13. -/
theorem cooperator_betrayer_not_seven_thirteen :
    ∃ st, runEpochs 2 1 cooperatorAndBetrayer countingMt = Except.ok st ∧
      energies st.1 = [4, 16] ∧ energies st.1 ≠ [7, 13] :=
  ⟨_, rfl, by decide, by decide⟩

/-- C5: the four entries of the payoff table. -/
theorem getPayoff_table :
    getPayoff 0 0 = (1, 1) ∧ getPayoff 1 1 = (-1, -1) ∧
      getPayoff 0 1 = (-3, 3) ∧ getPayoff 1 0 = (3, -3) := by
  decide

theorem castInt_of_nonneg (x : ℚ) (h : 0 ≤ x) : castInt x = ⌊x⌋ := by
  unfold castInt
  rw [Rat.floor_def]
  exact Int.tdiv_eq_ediv (Rat.num_nonneg.mpr h) (by exact_mod_cast Nat.zero_le _)

theorem castInt_nonneg (x : ℚ) (h : 0 ≤ x) : 0 ≤ castInt x := by
  rw [castInt_of_nonneg x h]
  exact Int.floor_nonneg.mpr h

theorem pushLoop_length (s : Strategy) (e : Int) (n : Nat) (st : List Player × Int) :
    (pushLoop s e n st).1.length = st.1.length + n := by
  induction n generalizing st with
  | zero => rfl
  | succ n ih =>
    unfold pushLoop
    rw [ih]
    simp
    omega

theorem pushLoop_strategies (s : Strategy) (e : Int) (n : Nat) (st : List Player × Int) :
    (pushLoop s e n st).1.map Player.getStrategy
      = st.1.map Player.getStrategy ++ List.replicate n s := by
  induction n generalizing st with
  | zero => simp [pushLoop]
  | succ n ih =>
    unfold pushLoop
    rw [ih]
    simp [List.replicate_succ, Player.getStrategy, Player.Player]

theorem createPlayers_length (c : Config) :
    (createPlayers c).length = (countCoopP c).toNat + (countBetrayP c).toNat
      + (countHitbackP c).toNat + (countWatcherP c).toNat + (countRandomP c).toNat := by
  simp [createPlayers, pushLoop_length]

theorem createPlayers_strategies (c : Config) :
    (createPlayers c).map Player.getStrategy =
      List.replicate (countCoopP c).toNat Strategy.COOPERATION
      ++ List.replicate (countBetrayP c).toNat Strategy.BETRAYAL
      ++ List.replicate (countHitbackP c).toNat Strategy.HITBACK
      ++ List.replicate (countWatcherP c).toNat Strategy.WATCHER
      ++ List.replicate (countRandomP c).toNat Strategy.RANDOM_STR := by
  simp [createPlayers, pushLoop_strategies]

theorem castInt_intCast (n : Int) : castInt (n : ℚ) = n := by
  simp [castInt]

theorem castInt_mulDouble_nonneg (N : Int) (r : ℚ) (hN : 0 ≤ N) (hr : 0 ≤ r) :
    castInt (mulDouble N r) = machineCount N r ∧ 0 ≤ machineCount N r := by
  have h : (0 : ℚ) ≤ mulDouble N r := mulDouble_nonneg N r hN hr
  exact ⟨castInt_of_nonneg _ h, Int.floor_nonneg.mpr h⟩

theorem machineCount_of_exact (N : Int) (r : ℚ) (h : mulDouble N r = (N : ℚ) * r) :
    machineCount N r = specCount N r := by
  unfold machineCount specCount
  rw [h]

theorem machineSum_of_exact (c : Config) (h : ProductsExact c) : machineSum c = specSum c := by
  obtain ⟨h1, h2, h3, h4, h5⟩ := h
  unfold machineSum specSum
  rw [machineCount_of_exact _ _ h1, machineCount_of_exact _ _ h2, machineCount_of_exact _ _ h3,
    machineCount_of_exact _ _ h4, machineCount_of_exact _ _ h5]

/-- Counts of the construction for `N ≥ 0` and non-negative ratios whose
computed counts sum to at most `N`. -/
theorem counts_of_machineSum_le (c : Config) (hN : 0 ≤ c.N)
    (hC : 0 ≤ c.ratioCoop) (hB : 0 ≤ c.ratioBetray) (hH : 0 ≤ c.ratioHitback)
    (hW : 0 ≤ c.ratioWatcher) (hR : 0 ≤ c.ratioRandom)
    (hsum : machineSum c ≤ c.N) :
    ((countCoopP c).toNat : Int) = machineCount c.N c.ratioCoop ∧
    ((countBetrayP c).toNat : Int) = machineCount c.N c.ratioBetray ∧
    ((countHitbackP c).toNat : Int) = machineCount c.N c.ratioHitback ∧
    ((countWatcherP c).toNat : Int) = machineCount c.N c.ratioWatcher ∧
    ((countRandomP c).toNat : Int) = machineCount c.N c.ratioRandom + (c.N - machineSum c) := by
  obtain ⟨eC, nC⟩ := castInt_mulDouble_nonneg c.N c.ratioCoop hN hC
  obtain ⟨eB, nB⟩ := castInt_mulDouble_nonneg c.N c.ratioBetray hN hB
  obtain ⟨eH, nH⟩ := castInt_mulDouble_nonneg c.N c.ratioHitback hN hH
  obtain ⟨eW, nW⟩ := castInt_mulDouble_nonneg c.N c.ratioWatcher hN hW
  obtain ⟨eR, nR⟩ := castInt_mulDouble_nonneg c.N c.ratioRandom hN hR
  have hs : sumCount c = machineSum c := by
    simp only [sumCount, machineSum, countCoopP, countBetrayP, countHitbackP, countWatcherP, eC,
      eB, eH, eW, eR]
  simp only [countRandomP, hs, countCoopP, countBetrayP, countHitbackP, countWatcherP, eC, eB,
    eH, eW, eR]
  unfold machineSum at hsum ⊢
  refine ⟨Int.toNat_of_nonneg nC, Int.toNat_of_nonneg nB, Int.toNat_of_nonneg nH,
    Int.toNat_of_nonneg nW, ?_⟩
  split
  · rw [Int.toNat_of_nonneg (by omega)]
  · rw [Int.toNat_of_nonneg nR]; omega

/-- C3 (amended): for `N ≥ 0` and non-negative ratios, with the products
`N * ratio` computed exactly and floor counts summing to at most `N`,
construction succeeds and yields exactly `N` players. -/
theorem population_size (c : Config) (hN : 0 ≤ c.N)
    (hC : 0 ≤ c.ratioCoop) (hB : 0 ≤ c.ratioBetray) (hH : 0 ≤ c.ratioHitback)
    (hW : 0 ≤ c.ratioWatcher) (hR : 0 ≤ c.ratioRandom)
    (hexact : ProductsExact c) (hsum : specSum c ≤ c.N) :
    ∃ players, initPlayers c = Except.ok players ∧ (players.length : Int) = c.N := by
  refine ⟨createPlayers c, by simp [initPlayers, not_lt.mpr hN], ?_⟩
  have hms : machineSum c ≤ c.N := by rw [machineSum_of_exact c hexact]; exact hsum
  obtain ⟨kC, kB, kH, kW, kR⟩ := counts_of_machineSum_le c hN hC hB hH hW hR hms
  rw [createPlayers_length]
  push_cast
  rw [kC, kB, kH, kW, kR]
  unfold machineSum
  omega

theorem excessConfig_counts :
    countCoopP excessConfig = 50 ∧ countBetrayP excessConfig = 50 ∧
      countHitbackP excessConfig = 50 ∧ countWatcherP excessConfig = 0 ∧
      castInt (mulDouble excessConfig.N excessConfig.ratioRandom) = 0 := by
  have h50 : mulDouble 100 (1 / 2) = ((50 : Int) : ℚ) :=
    mulDouble_of_int 100 (1 / 2) 50 (by norm_num) (by decide) (by decide)
  have h0 : mulDouble 100 0 = ((0 : Int) : ℚ) :=
    mulDouble_of_int 100 0 0 (by norm_num) (by decide) (by decide)
  simp only [countCoopP, countBetrayP, countHitbackP, countWatcherP, excessConfig, h50, h0,
    castInt_intCast]
  decide

/-- C3 as stated fails: with `N = 100` and the non-negative ratios
0.5, 0.5, 0.5, 0, 0, whose products with `N` are exact, the construction
yields 150 players, not 100. -/
theorem population_size_excess :
    0 ≤ excessConfig.N ∧ 0 ≤ excessConfig.ratioCoop ∧ 0 ≤ excessConfig.ratioBetray ∧
      0 ≤ excessConfig.ratioHitback ∧ 0 ≤ excessConfig.ratioWatcher ∧
      0 ≤ excessConfig.ratioRandom ∧ ProductsExact excessConfig ∧
      initPlayers excessConfig = Except.ok (createPlayers excessConfig) ∧
      (createPlayers excessConfig).length = 150 ∧
      ((createPlayers excessConfig).length : Int) ≠ excessConfig.N := by
  obtain ⟨hC, hB, hH, hW, hR⟩ := excessConfig_counts
  have hlen : (createPlayers excessConfig).length = 150 := by
    rw [createPlayers_length]
    simp only [countRandomP, sumCount, hC, hB, hH, hW, hR]
    simp [excessConfig]
  have h50 : mulDouble 100 (1 / 2) = (100 : ℚ) * (1 / 2) := by
    rw [mulDouble_of_int 100 (1 / 2) 50 (by norm_num) (by decide) (by decide)]; norm_num
  have h0 : mulDouble 100 0 = (100 : ℚ) * 0 := by
    rw [mulDouble_of_int 100 0 0 (by norm_num) (by decide) (by decide)]; norm_num
  refine ⟨by decide, by norm_num [excessConfig], by norm_num [excessConfig],
    by norm_num [excessConfig], by norm_num [excessConfig], by norm_num [excessConfig],
    ?_, by simp [initPlayers, excessConfig], hlen, ?_⟩
  · simp only [ProductsExact, excessConfig]
    exact ⟨by exact_mod_cast h50, by exact_mod_cast h50, by exact_mod_cast h50,
      by exact_mod_cast h0, by exact_mod_cast h0⟩
  · rw [hlen]
    simp [excessConfig]

theorem sourceConfig_exact : ProductsExact sourceConfig := by
  have h0 : mulDouble 100 0 = (100 : ℚ) * 0 := by
    rw [mulDouble_of_int 100 0 0 (by norm_num) (by decide) (by decide)]; norm_num
  have h25 : mulDouble 100 (1 / 4) = (100 : ℚ) * (1 / 4) := by
    rw [mulDouble_of_int 100 (1 / 4) 25 (by norm_num) (by decide) (by decide)]; norm_num
  have h50 : mulDouble 100 (1 / 2) = (100 : ℚ) * (1 / 2) := by
    rw [mulDouble_of_int 100 (1 / 2) 50 (by norm_num) (by decide) (by decide)]; norm_num
  simp only [ProductsExact, sourceConfig]
  exact ⟨by exact_mod_cast h0, by exact_mod_cast h0, by exact_mod_cast h25,
    by exact_mod_cast h25, by exact_mod_cast h50⟩

/-- Witness for C3: the configuration of the source (`N = 100`, ratios
0, 0, 0.25, 0.25, 0.5) yields exactly 100 players. -/
theorem population_size_witness :
    ProductsExact sourceConfig ∧ specSum sourceConfig ≤ sourceConfig.N ∧
    ∃ players, initPlayers sourceConfig = Except.ok players ∧ (players.length : Int) = 100 := by
  have h0 : specCount 100 0 = 0 := by norm_num [specCount]
  have h25 : specCount 100 (1 / 4) = 25 := by norm_num [specCount]
  have h50 : specCount 100 (1 / 2) = 50 := by norm_num [specCount]
  have hs : specSum sourceConfig ≤ sourceConfig.N := by
    simp only [specSum, sourceConfig, h0, h25, h50]
    decide
  exact ⟨sourceConfig_exact, hs, population_size sourceConfig (by decide)
    (by norm_num [sourceConfig]) (by norm_num [sourceConfig]) (by norm_num [sourceConfig])
    (by norm_num [sourceConfig]) (by norm_num [sourceConfig]) sourceConfig_exact hs⟩

theorem negativeRatioConfig_players :
    createPlayers negativeRatioConfig =
      [Player.Player 0 Strategy.BETRAYAL 10, Player.Player 1 Strategy.BETRAYAL 10,
        Player.Player 2 Strategy.RANDOM_STR 10] := by
  have h1 : castInt (mulDouble 2 (-1 / 2)) = -1 := by
    rw [mulDouble_of_int 2 (-1 / 2) (-1) (by norm_num) (by decide) (by decide), castInt_intCast]
  have h2 : castInt (mulDouble 2 1) = 2 := by
    rw [mulDouble_of_int 2 1 2 (by norm_num) (by decide) (by decide), castInt_intCast]
  have h0 : castInt (mulDouble 2 0) = 0 := by
    rw [mulDouble_of_int 2 0 0 (by norm_num) (by decide) (by decide), castInt_intCast]
  simp only [createPlayers, countCoopP, countBetrayP, countHitbackP, countWatcherP, countRandomP,
    sumCount, negativeRatioConfig, h1, h2, h0]
  rfl

/-- C4 as stated fails: a configuration with the negative ratio -0.5 is not
rejected; three players are constructed and the epoch is played. -/
theorem negative_ratio_accepted :
    negativeRatioConfig.ratioCoop < 0 ∧
    ∃ st, simulate 3 negativeRatioConfig countingMt = Except.ok st ∧
      st.1.length = 3 ∧ energies st.1 = [9, 7, 8] := by
  refine ⟨by norm_num [negativeRatioConfig], ?_⟩
  have h : initPlayers negativeRatioConfig = Except.ok (createPlayers negativeRatioConfig) := by
    simp [initPlayers, negativeRatioConfig]
  simp only [simulate, h, negativeRatioConfig_players]
  exact ⟨_, rfl, by decide, by decide⟩

/-- C4 (amended): the only rejected configuration is a negative population
size, for which the run aborts with the length error of `reserve` before
any player exists and before any epoch.  For `N ≥ 0` construction always
succeeds, whatever the signs of the ratios, and with a non-positive epoch
count the run ends normally with the constructed population. -/
theorem configuration_validation (fuel : Nat) (c : Config) (mt : Mt19937) :
    (c.N < 0 → initPlayers c = Except.error Fault.lengthError ∧
      simulate fuel c mt = Except.error Fault.lengthError) ∧
    (0 ≤ c.N → initPlayers c = Except.ok (createPlayers c)) ∧
    (0 ≤ c.N → c.numEpoch ≤ 0 → simulate fuel c mt = Except.ok (createPlayers c, mt)) := by
  refine ⟨fun h => ?_, fun h => ?_, fun h he => ?_⟩
  · simp [simulate, initPlayers, h]
  · simp [initPlayers, not_lt.mpr h]
  · have hz : c.numEpoch.toNat = 0 := Int.toNat_eq_zero.mpr he
    simp [simulate, initPlayers, not_lt.mpr h, hz, runEpochs]

/-- Witness for C4: the three parts at a negative size, a negative ratio and a
negative epoch count. -/
theorem configuration_validation_witness :
    simulate 3 negativeSizeConfig countingMt = Except.error Fault.lengthError ∧
    initPlayers negativeRatioConfig = Except.ok (createPlayers negativeRatioConfig) ∧
    simulate 3 negativeEpochConfig countingMt
      = Except.ok (createPlayers negativeEpochConfig, countingMt) :=
  ⟨((configuration_validation 3 negativeSizeConfig countingMt).1 (by decide)).2,
    (configuration_validation 3 negativeRatioConfig countingMt).2.1 (by decide),
    (configuration_validation 3 negativeEpochConfig countingMt).2.2 (by decide) (by decide)⟩

theorem mapFind_mapStore_same (key : Int) (v : List Int) (m : List (Int × List Int)) :
    mapFind (mapStore key v m) key = some v := by
  induction m with
  | nil => simp [mapStore, mapFind]
  | cons e rest ih =>
    obtain ⟨k, w⟩ := e
    by_cases hk : k = key
    · simp [mapStore, mapFind, hk]
    · simp [mapStore, mapFind, hk, ih]

theorem mapFind_mapStore_other (key other : Int) (v : List Int) (m : List (Int × List Int))
    (h : other ≠ key) : mapFind (mapStore key v m) other = mapFind m other := by
  induction m with
  | nil => simp [mapStore, mapFind, Ne.symm h]
  | cons e rest ih =>
    obtain ⟨k, w⟩ := e
    by_cases hk : k = key
    · subst hk
      simp [mapStore, mapFind, Ne.symm h]
    · by_cases hko : k = other
      · subst hko
        simp [mapStore, mapFind, hk]
      · simp [mapStore, mapFind, hk, hko, ih]

theorem getHistory_update_same (p : Player) (o m : Int) :
    (p.updateOpponentInfo o m).getHistoryOfOpponent o
      = trimFront (p.getHistoryOfOpponent o ++ [m]) := by
  unfold Player.updateOpponentInfo Player.getHistoryOfOpponent trimFront
  simp only [mapFind_mapStore_same]
  cases mapFind p.opponentHistory o <;> simp

theorem getHistory_update_other (p : Player) (o other m : Int) (h : other ≠ o) :
    (p.updateOpponentInfo o m).getHistoryOfOpponent other = p.getHistoryOfOpponent other := by
  unfold Player.updateOpponentInfo Player.getHistoryOfOpponent
  simp only [mapFind_mapStore_other _ _ _ _ h]

theorem trimFront_length (hist : List Int) (h : hist.length ≤ 6) : (trimFront hist).length ≤ 5 := by
  unfold trimFront
  split
  · simp; omega
  · omega

theorem trimFront_append_drop (h : List Int) (m : Int) (ms : List Int) (hlen : h.length ≤ 5) :
    (trimFront (h ++ [m]) ++ ms).drop ((trimFront (h ++ [m]) ++ ms).length - 5)
      = (h ++ m :: ms).drop ((h ++ m :: ms).length - 5) := by
  unfold trimFront
  split
  · rename_i hgt
    simp at hgt
    have h5 : h.length = 5 := by omega
    have e : h ++ m :: ms = (h ++ [m]) ++ ms := by simp
    rw [e]
    cases hh : h ++ [m] with
    | nil => simp at hh
    | cons x t =>
      have hl : (x :: t).length = 6 := by rw [← hh]; simp [h5]
      simp only [List.tail_cons, List.cons_append, List.length_cons, List.length_append] at hl ⊢
      have e2 : t.length + ms.length + 1 - 5 = (t.length + ms.length - 5) + 1 := by omega
      rw [e2, List.drop_succ_cons]
  · simp

/-- History of `o` after a sequence of calls, from any player whose stored
history for `o` has at most 5 entries: the last 5 of the old history
followed by the moves recorded for `o`. -/
theorem getHistory_recordAll (calls : List (Int × Int)) (p : Player) (o : Int)
    (hlen : (p.getHistoryOfOpponent o).length ≤ 5) :
    (recordAll p calls).getHistoryOfOpponent o
      = (p.getHistoryOfOpponent o ++ movesOf o calls).drop
          ((p.getHistoryOfOpponent o ++ movesOf o calls).length - 5) := by
  induction calls generalizing p with
  | nil =>
    simp only [recordAll, movesOf, List.filter_nil, List.map_nil, List.append_nil]
    rw [Nat.sub_eq_zero_of_le hlen, List.drop_zero]
  | cons call rest ih =>
    unfold recordAll
    by_cases hc : call.1 = o
    · have hs := getHistory_update_same p o call.2
      rw [hc]
      have hl : ((p.updateOpponentInfo o call.2).getHistoryOfOpponent o).length ≤ 5 := by
        rw [hs]
        exact trimFront_length _ (by simp; omega)
      rw [ih _ hl, hs]
      have hm : movesOf o (call :: rest) = call.2 :: movesOf o rest := by
        simp [movesOf, hc]
      rw [hm]
      exact trimFront_append_drop _ _ _ hlen
    · have ho := getHistory_update_other p call.1 o call.2 (Ne.symm hc)
      have hm : movesOf o (call :: rest) = movesOf o rest := by
        simp [movesOf, hc]
      rw [ih _ (by rw [ho]; exact hlen), ho, hm]

/-- C6: starting from a player with no history, after any sequence of
`updateOpponentInfo` calls (for any opponent ids, interleaved), the history
of opponent `o` is the last `min n 5` of the `n` moves recorded for `o`, in
recorded order; its length is at most 5, and it is empty when no move was
recorded for `o`. -/
theorem history_window (p : Player) (hp : p.opponentHistory = []) (calls : List (Int × Int))
    (o : Int) :
    (recordAll p calls).getHistoryOfOpponent o
        = (movesOf o calls).drop ((movesOf o calls).length - min (movesOf o calls).length 5) ∧
      ((recordAll p calls).getHistoryOfOpponent o).length = min (movesOf o calls).length 5 ∧
      ((recordAll p calls).getHistoryOfOpponent o).length ≤ 5 ∧
      (movesOf o calls = [] → (recordAll p calls).getHistoryOfOpponent o = []) := by
  have h0 : p.getHistoryOfOpponent o = [] := by
    simp [Player.getHistoryOfOpponent, hp, mapFind]
  have h := getHistory_recordAll calls p o (by simp [h0])
  rw [h0, List.nil_append] at h
  have e : (movesOf o calls).length - min (movesOf o calls).length 5
      = (movesOf o calls).length - 5 := by omega
  rw [e, h]
  refine ⟨rfl, ?_, ?_, ?_⟩
  · simp only [List.length_drop]; omega
  · simp only [List.length_drop]; omega
  · intro hnil
    simp [hnil]

/-- Witness for C6: seven moves recorded for opponent 3, interleaved with
moves of opponent 4, leave the last five moves of opponent 3. -/
theorem history_window_witness :
    (recordAll (Player.Player 0 Strategy.WATCHER 10)
        [(3, 1), (3, 0), (4, 1), (3, 1), (3, 1), (4, 0), (3, 0), (3, 0), (3, 1)]).getHistoryOfOpponent 3
      = [1, 1, 0, 0, 1] :=
  (history_window (Player.Player 0 Strategy.WATCHER 10) rfl
    [(3, 1), (3, 0), (4, 1), (3, 1), (3, 1), (4, 0), (3, 0), (3, 0), (3, 1)] 3).1.trans (by decide)

theorem decideMove_hitback (p : Player) (h : p.strategy = Strategy.HITBACK)
    (g : Mt19937) (o : Int) :
    p.decideMove g o = (((p.getHistoryOfOpponent o).getLast?).getD 0, g) := by
  simp only [Player.decideMove, h]
  cases hh : p.getHistoryOfOpponent o with
  | nil => simp
  | cons x t => simp [List.getLastD, List.getLast?_eq_getLast]

theorem trimFront_getLast? (hist : List Int) : (trimFront hist).getLast? = hist.getLast? := by
  unfold trimFront
  split
  · rename_i hgt
    match hist, hgt with
    | x :: y :: t, _ => simp [List.getLast?_cons_cons]
  · rfl

theorem getLast?_recordAll (calls : List (Int × Int)) (p : Player) (o : Int) :
    ((recordAll p calls).getHistoryOfOpponent o).getLast?
      = (p.getHistoryOfOpponent o ++ movesOf o calls).getLast? := by
  induction calls generalizing p with
  | nil => simp [recordAll, movesOf]
  | cons call rest ih =>
    unfold recordAll
    rw [ih]
    by_cases hc : call.1 = o
    · have hm : movesOf o (call :: rest) = call.2 :: movesOf o rest := by
        simp [movesOf, hc]
      have e : p.getHistoryOfOpponent o ++ call.2 :: movesOf o rest
          = (p.getHistoryOfOpponent o ++ [call.2]) ++ movesOf o rest := by simp
      rw [hm, hc, getHistory_update_same, e, List.getLast?_append, List.getLast?_append,
        trimFront_getLast?]
    · have hm : movesOf o (call :: rest) = movesOf o rest := by
        simp [movesOf, hc]
      rw [hm, getHistory_update_other p call.1 o call.2 (Ne.symm hc)]

/-- C7: a HITBACK player returns 0 against an opponent with no recorded move,
and otherwise the last entry of the opponent's history; after
`updateOpponentInfo(o, m)` that is `m`, and after any sequence of calls in
which some move was recorded for `o` it is the move recorded last for `o`,
whatever the earlier history.  The generator is returned unchanged. -/
theorem hitback_rule (p : Player) (hs : p.strategy = Strategy.HITBACK) (g : Mt19937) (o : Int) :
    (p.getHistoryOfOpponent o = [] → p.decideMove g o = (0, g)) ∧
    (∀ m, (p.getHistoryOfOpponent o).getLast? = some m → p.decideMove g o = (m, g)) ∧
    (∀ m, (p.updateOpponentInfo o m).decideMove g o = (m, g)) ∧
    (∀ calls m, (movesOf o calls).getLast? = some m →
      (recordAll p calls).decideMove g o = (m, g)) := by
  refine ⟨fun h => ?_, fun m h => ?_, fun m => ?_, fun calls m h => ?_⟩
  · rw [decideMove_hitback p hs, h]; rfl
  · rw [decideMove_hitback p hs, h]; rfl
  · have hs1 : (p.updateOpponentInfo o m).strategy = Strategy.HITBACK := hs
    rw [decideMove_hitback _ hs1, getHistory_update_same, trimFront_getLast?]
    simp
  · have hs1 : ∀ (cs : List (Int × Int)) (q : Player), q.strategy = Strategy.HITBACK →
        (recordAll q cs).strategy = Strategy.HITBACK := by
      intro cs
      induction cs with
      | nil => intro q hq; exact hq
      | cons c r ih => intro q hq; exact ih _ hq
    rw [decideMove_hitback _ (hs1 calls p hs), getLast?_recordAll, List.getLast?_append, h]
    rfl

/-- Witness for C7: a HITBACK player that recorded 0, 0 and then 1 for
opponent 3 plays 1 against opponent 3. -/
theorem hitback_rule_witness :
    ((recordAll (Player.Player 0 Strategy.HITBACK 10) [(3, 0), (3, 0)]).updateOpponentInfo 3 1).decideMove
        countingMt 3 = (1, countingMt) :=
  (hitback_rule (recordAll (Player.Player 0 Strategy.HITBACK 10) [(3, 0), (3, 0)]) rfl
    countingMt 3).2.2.1 1

theorem watcherCount_eq (hist : List Int) (c : Int × Int) :
    Player.watcherCount hist c
      = (c.1 + countMove 0 hist, c.2 + (hist.length - countMove 0 hist : Nat)) := by
  induction hist generalizing c with
  | nil => simp [Player.watcherCount, countMove]
  | cons m rest ih =>
    unfold Player.watcherCount
    have hle : countMove 0 rest ≤ rest.length := List.count_le_length _ _
    by_cases hm : m = 0
    · simp only [hm, if_true, ih, countMove, List.count_cons_self, List.length_cons] at hle ⊢
      ext <;> simp; omega
    · have hm2 : ¬ (m == 0) = true := by simpa using hm
      simp only [hm, if_false, ih, countMove, List.count_cons, List.length_cons, hm2] at hle ⊢
      ext <;> simp; omega

theorem count_zero_one (hist : List Int) (h : ∀ m ∈ hist, m = 0 ∨ m = 1) :
    countMove 0 hist + countMove 1 hist = hist.length := by
  induction hist with
  | nil => simp [countMove]
  | cons m rest ih =>
    have ih2 := ih (fun x hx => h x (List.mem_cons_of_mem _ hx))
    rcases h m (List.mem_cons_self _ _) with h0 | h1
    · subst h0
      simp only [countMove, List.count_cons, List.length_cons] at ih2 ⊢
      simp
      omega
    · subst h1
      simp only [countMove, List.count_cons, List.length_cons] at ih2 ⊢
      simp
      omega

/-- C8: a WATCHER player whose history for `o` holds only moves 0 and 1
returns 1 exactly when the 1s strictly outnumber the 0s, and 0 otherwise;
the generator is returned unchanged.  The histories `[1,1,1,0,0]`,
`[1,1,0,0,0]` and `[]` give 1, 0 and 0. -/
theorem watcher_rule (p : Player) (hs : p.strategy = Strategy.WATCHER) (g : Mt19937) (o : Int)
    (hist : List Int) (hh : p.getHistoryOfOpponent o = hist)
    (h01 : ∀ m ∈ hist, m = 0 ∨ m = 1) :
    ((p.decideMove g o).1 = 1 ↔ countMove 1 hist > countMove 0 hist) ∧
    (¬ (countMove 1 hist > countMove 0 hist) → (p.decideMove g o).1 = 0) ∧
    (p.decideMove g o).2 = g ∧
    (hist = [1, 1, 1, 0, 0] → (p.decideMove g o).1 = 1) ∧
    (hist = [1, 1, 0, 0, 0] → (p.decideMove g o).1 = 0) ∧
    (hist = [] → (p.decideMove g o).1 = 0) := by
  have hc := count_zero_one hist h01
  have hd : p.decideMove g o
      = (if countMove 1 hist > countMove 0 hist then 1 else 0, g) := by
    simp only [Player.decideMove, hs, hh, watcherCount_eq]
    by_cases hgt : countMove 1 hist > countMove 0 hist
    · rw [if_pos hgt, if_pos]
      simp only [zero_add]
      have : hist.length - countMove 0 hist = countMove 1 hist := by omega
      rw [this]
      exact_mod_cast hgt
    · rw [if_neg hgt, if_neg]
      simp only [zero_add]
      have : hist.length - countMove 0 hist = countMove 1 hist := by omega
      rw [this]
      exact_mod_cast hgt
  rw [hd]
  refine ⟨?_, ?_, rfl, ?_, ?_, ?_⟩
  · by_cases hgt : countMove 1 hist > countMove 0 hist <;> simp [hgt]
  · intro hgt; simp [hgt]
  · intro e; subst e; rfl
  · intro e; subst e; rfl
  · intro e; subst e; rfl

/-- Witness for C8: a WATCHER player that recorded 1, 1, 1, 0, 0 for
opponent 3 plays 1 against opponent 3. -/
theorem watcher_rule_witness :
    ((recordAll (Player.Player 0 Strategy.WATCHER 10)
        [(3, 1), (3, 1), (3, 1), (3, 0), (3, 0)]).decideMove countingMt 3).1 = 1 :=
  (watcher_rule (recordAll (Player.Player 0 Strategy.WATCHER 10)
      [(3, 1), (3, 1), (3, 1), (3, 0), (3, 0)]) rfl countingMt 3 [1, 1, 1, 0, 0] (by decide)
    (by decide)).2.2.2.1 rfl

theorem createPlayers_counts (c : Config) :
    countStrategy Strategy.COOPERATION (createPlayers c) = (countCoopP c).toNat ∧
    countStrategy Strategy.BETRAYAL (createPlayers c) = (countBetrayP c).toNat ∧
    countStrategy Strategy.HITBACK (createPlayers c) = (countHitbackP c).toNat ∧
    countStrategy Strategy.WATCHER (createPlayers c) = (countWatcherP c).toNat ∧
    countStrategy Strategy.RANDOM_STR (createPlayers c) = (countRandomP c).toNat := by
  simp [countStrategy, createPlayers_strategies, List.count_replicate]

/-- C9 (amended): for `N ≥ 0` and non-negative ratios, with counts taken
from the `double` products as computed (rounded to the nearest `double`)
and summing to at most `N`, the constructed population has exactly
`floor(fl(N * ratio))` players of each of COOPERATION, BETRAYAL, HITBACK
and WATCHER, and `floor(fl(N * ratioRandom)) + (N - sum of the five)`
RANDOM_STR players.  When the five products are computed exactly these
are the counts `floor(N * ratio)` of the exact products. -/
theorem remainder_policy (c : Config) (hN : 0 ≤ c.N)
    (hC : 0 ≤ c.ratioCoop) (hB : 0 ≤ c.ratioBetray) (hH : 0 ≤ c.ratioHitback)
    (hW : 0 ≤ c.ratioWatcher) (hR : 0 ≤ c.ratioRandom)
    (hsum : machineSum c ≤ c.N) :
    (∃ players, initPlayers c = Except.ok players ∧
      (countStrategy Strategy.COOPERATION players : Int) = machineCount c.N c.ratioCoop ∧
      (countStrategy Strategy.BETRAYAL players : Int) = machineCount c.N c.ratioBetray ∧
      (countStrategy Strategy.HITBACK players : Int) = machineCount c.N c.ratioHitback ∧
      (countStrategy Strategy.WATCHER players : Int) = machineCount c.N c.ratioWatcher ∧
      (countStrategy Strategy.RANDOM_STR players : Int)
        = machineCount c.N c.ratioRandom + (c.N - machineSum c)) ∧
    (ProductsExact c →
      machineCount c.N c.ratioCoop = specCount c.N c.ratioCoop ∧
      machineCount c.N c.ratioBetray = specCount c.N c.ratioBetray ∧
      machineCount c.N c.ratioHitback = specCount c.N c.ratioHitback ∧
      machineCount c.N c.ratioWatcher = specCount c.N c.ratioWatcher ∧
      machineCount c.N c.ratioRandom = specCount c.N c.ratioRandom ∧
      machineSum c = specSum c) := by
  constructor
  · refine ⟨createPlayers c, by simp [initPlayers, not_lt.mpr hN], ?_⟩
    obtain ⟨kC, kB, kH, kW, kR⟩ := createPlayers_counts c
    rw [kC, kB, kH, kW, kR]
    exact counts_of_machineSum_le c hN hC hB hH hW hR hsum
  · intro hex
    exact ⟨machineCount_of_exact _ _ hex.1, machineCount_of_exact _ _ hex.2.1,
      machineCount_of_exact _ _ hex.2.2.1, machineCount_of_exact _ _ hex.2.2.2.1,
      machineCount_of_exact _ _ hex.2.2.2.2, machineSum_of_exact c hex⟩

/-- Witness for C9: `N = 100` with the `double` 0.1 for each ratio gives 10
players of each of the first four strategies and 60 RANDOM_STR players. -/
theorem remainder_policy_witness :
    ∃ players, initPlayers tenthsConfig = Except.ok players ∧
      countStrategy Strategy.COOPERATION players = 10 ∧
      countStrategy Strategy.BETRAYAL players = 10 ∧
      countStrategy Strategy.HITBACK players = 10 ∧
      countStrategy Strategy.WATCHER players = 10 ∧
      countStrategy Strategy.RANDOM_STR players = 60 := by
  have hv : machineCount 100 double01 = 10 := by
    unfold machineCount
    rw [mulDouble_100_double01]
    norm_num
  have hs : machineSum tenthsConfig = 50 := by simp only [machineSum, tenthsConfig, hv]; rfl
  have hd : (0 : ℚ) ≤ double01 := by norm_num [double01]
  obtain ⟨players, h, a, b, d, e, f⟩ := (remainder_policy tenthsConfig (by decide)
    hd hd hd hd hd (by rw [hs]; decide)).1
  rw [hs] at f
  simp only [tenthsConfig, hv] at a b d e f
  exact ⟨players, h, by omega, by omega, by omega, by omega, by omega⟩

/-- C9 as stated fails: with `N = 100` and the `double` ratios 0.29 and 0.71
the floors of the exact products are 28 and 70 (sum 98), but the `double`
product `100 * 0.71` is rounded to 71.0: the program builds 28
COOPERATION, 71 BETRAYAL and 1 RANDOM_STR player, not 28, 70 and 2. -/
theorem remainder_policy_rounded :
    0 ≤ roundedConfig.N ∧ 0 ≤ roundedConfig.ratioCoop ∧ 0 ≤ roundedConfig.ratioBetray ∧
    0 ≤ roundedConfig.ratioHitback ∧ 0 ≤ roundedConfig.ratioWatcher ∧
    0 ≤ roundedConfig.ratioRandom ∧
    specSum roundedConfig ≤ roundedConfig.N ∧
    specCount roundedConfig.N roundedConfig.ratioCoop = 28 ∧
    specCount roundedConfig.N roundedConfig.ratioBetray = 70 ∧
    specCount roundedConfig.N roundedConfig.ratioRandom
      + (roundedConfig.N - specSum roundedConfig) = 2 ∧
    initPlayers roundedConfig = Except.ok (createPlayers roundedConfig) ∧
    countStrategy Strategy.COOPERATION (createPlayers roundedConfig) = 28 ∧
    countStrategy Strategy.BETRAYAL (createPlayers roundedConfig) = 71 ∧
    countStrategy Strategy.RANDOM_STR (createPlayers roundedConfig) = 1 := by
  have s29 : specCount 100 double029 = 28 := by
    unfold specCount double029
    rw [Int.floor_eq_iff]; norm_num
  have s71 : specCount 100 double071 = 70 := by
    unfold specCount double071
    rw [Int.floor_eq_iff]; norm_num
  have s0 : specCount 100 0 = 0 := by norm_num [specCount]
  have hsum : specSum roundedConfig = 98 := by
    simp only [specSum, roundedConfig, s29, s71, s0]; rfl
  have m29 : castInt (mulDouble 100 double029) = 28 := by
    rw [mulDouble_100_double029, castInt_of_nonneg _ (by norm_num), Int.floor_eq_iff]
    norm_num
  have m71 : castInt (mulDouble 100 double071) = 71 := by
    rw [mulDouble_100_double071]
    exact castInt_intCast 71
  have m0 : castInt (mulDouble 100 0) = 0 := by
    rw [mulDouble_of_int 100 0 0 (by norm_num) (by decide) (by decide), castInt_intCast]
  obtain ⟨kC, kB, -, -, kR⟩ := createPlayers_counts roundedConfig
  have cC : countCoopP roundedConfig = 28 := by simp only [countCoopP, roundedConfig, m29]
  have cB : countBetrayP roundedConfig = 71 := by simp only [countBetrayP, roundedConfig, m71]
  have cR : countRandomP roundedConfig = 1 := by
    simp only [countRandomP, sumCount, countCoopP, countBetrayP, countHitbackP, countWatcherP,
      roundedConfig, m29, m71, m0]
    decide
  rw [kC, kB, kR, cC, cB, cR, hsum]
  refine ⟨by decide, by norm_num [roundedConfig, double029],
    by norm_num [roundedConfig, double071], by norm_num [roundedConfig],
    by norm_num [roundedConfig], by norm_num [roundedConfig], by decide, ?_, ?_, ?_,
    by simp [initPlayers, roundedConfig], rfl, rfl, rfl⟩
  · simpa [roundedConfig] using s29
  · simpa [roundedConfig] using s71
  · have : specCount roundedConfig.N roundedConfig.ratioRandom = 0 := by
      simpa [roundedConfig] using s0
    rw [this]; decide

theorem pushLoop_fresh (s : Strategy) (e : Int) (n : Nat) (st : List Player × Int)
    (h : FreshState e st) : FreshState e (pushLoop s e n st) := by
  induction n generalizing st with
  | zero => exact h
  | succ n ih =>
    unfold pushLoop
    apply ih
    obtain ⟨hid, hall⟩ := h
    refine ⟨by simp [hid], ?_⟩
    intro p hp
    simp only [List.length_append, List.length_singleton] at hp
    by_cases hlt : p < st.1.length
    · have : getPlayer (st.1 ++ [Player.Player st.2 s e]) p = getPlayer st.1 p := by
        simp [getPlayer, List.getD_eq_getElem?_getD, List.getElem?_append_left hlt]
      rw [this]
      exact hall p hlt
    · have hpe : p = st.1.length := by omega
      have : getPlayer (st.1 ++ [Player.Player st.2 s e]) p = Player.Player st.2 s e := by
        simp [getPlayer, hpe, List.getD_eq_getElem?_getD]
      rw [this]
      simp [Player.Player, Player.getId, Player.getEnergy, Player.getLastMove, hid, hpe]

theorem createPlayers_fresh (c : Config) (p : Nat) (hp : p < (createPlayers c).length) :
    (getPlayer (createPlayers c) p).getId = p ∧
    (getPlayer (createPlayers c) p).getEnergy = c.initialEnergy ∧
    (getPlayer (createPlayers c) p).getLastMove = 0 ∧
    (getPlayer (createPlayers c) p).opponentHistory = [] := by
  have h0 : FreshState c.initialEnergy (([], 0) : List Player × Int) :=
    ⟨rfl, fun p hp => absurd hp (Nat.not_lt_zero _)⟩
  have h := pushLoop_fresh Strategy.RANDOM_STR c.initialEnergy (countRandomP c).toNat _
    (pushLoop_fresh Strategy.WATCHER c.initialEnergy (countWatcherP c).toNat _
    (pushLoop_fresh Strategy.HITBACK c.initialEnergy (countHitbackP c).toNat _
    (pushLoop_fresh Strategy.BETRAYAL c.initialEnergy (countBetrayP c).toNat _
    (pushLoop_fresh Strategy.COOPERATION c.initialEnergy (countCoopP c).toNat _ h0))))
  exact h.2 p hp

/-- C10: in the constructed population the player at position `p` has id `p`,
the configured initial energy, last move 0 and an empty history for every
opponent, and the strategies form the blocks COOPERATION, BETRAYAL,
HITBACK, WATCHER, RANDOM_STR in this order. -/
theorem construction_order (c : Config) (players : List Player)
    (h : initPlayers c = Except.ok players) :
    (∀ p, p < players.length →
      (getPlayer players p).getId = p ∧
      (getPlayer players p).getEnergy = c.initialEnergy ∧
      (getPlayer players p).getLastMove = 0 ∧
      ∀ o, (getPlayer players p).getHistoryOfOpponent o = []) ∧
    players.map Player.getStrategy =
      List.replicate (countCoopP c).toNat Strategy.COOPERATION
      ++ List.replicate (countBetrayP c).toNat Strategy.BETRAYAL
      ++ List.replicate (countHitbackP c).toNat Strategy.HITBACK
      ++ List.replicate (countWatcherP c).toNat Strategy.WATCHER
      ++ List.replicate (countRandomP c).toNat Strategy.RANDOM_STR := by
  unfold initPlayers at h
  split at h
  · cases h
  · cases h
    refine ⟨fun p hp => ?_, createPlayers_strategies c⟩
    obtain ⟨h1, h2, h3, h4⟩ := createPlayers_fresh c p hp
    exact ⟨h1, h2, h3, fun o => by simp [Player.getHistoryOfOpponent, h4, mapFind]⟩

theorem sourceConfig_counts :
    countCoopP sourceConfig = 0 ∧ countBetrayP sourceConfig = 0 ∧
      countHitbackP sourceConfig = 25 ∧ countWatcherP sourceConfig = 25 ∧
      countRandomP sourceConfig = 50 := by
  have e0 : castInt (mulDouble 100 0) = 0 := by
    rw [mulDouble_of_int 100 0 0 (by norm_num) (by decide) (by decide), castInt_intCast]
  have e25 : castInt (mulDouble 100 (1 / 4)) = 25 := by
    rw [mulDouble_of_int 100 (1 / 4) 25 (by norm_num) (by decide) (by decide), castInt_intCast]
  have e50 : castInt (mulDouble 100 (1 / 2)) = 50 := by
    rw [mulDouble_of_int 100 (1 / 2) 50 (by norm_num) (by decide) (by decide), castInt_intCast]
  simp only [countCoopP, countBetrayP, countHitbackP, countWatcherP, countRandomP, sumCount,
    sourceConfig, e0, e25, e50]
  decide

/-- Witness for C10: `N = 100` with ratios 0, 0, 0.25, 0.25, 0.5 gives 25
HITBACK, then 25 WATCHER, then 50 RANDOM_STR players, and the player at
position 60 has id 60 and energy 100. -/
theorem construction_order_witness :
    initPlayers sourceConfig = Except.ok (createPlayers sourceConfig) ∧
    (createPlayers sourceConfig).map Player.getStrategy =
      List.replicate 25 Strategy.HITBACK ++ List.replicate 25 Strategy.WATCHER
        ++ List.replicate 50 Strategy.RANDOM_STR ∧
    (getPlayer (createPlayers sourceConfig) 60).getId = 60 ∧
    (getPlayer (createPlayers sourceConfig) 60).getEnergy = 100 := by
  have hi : initPlayers sourceConfig = Except.ok (createPlayers sourceConfig) := by
    simp [initPlayers, sourceConfig]
  obtain ⟨hC, hB, hH, hW, hR⟩ := sourceConfig_counts
  have h := construction_order sourceConfig (createPlayers sourceConfig) hi
  have hs := h.2
  rw [hC, hB, hH, hW, hR] at hs
  have hlen : (createPlayers sourceConfig).length = 100 := by
    rw [createPlayers_length, hC, hB, hH, hW, hR]; rfl
  have h60 := h.1 60 (by rw [hlen]; decide)
  exact ⟨hi, by simpa using hs, h60.1, h60.2.1⟩

theorem getPlayer_map_range (players : List Player) :
    (List.range players.length).map (fun i => getPlayer players i) = players := by
  apply List.ext_getElem
  · simp
  · intro n h1 h2
    simp [getPlayer, List.getD_eq_getElem?_getD, List.getElem?_eq_getElem h2]

theorem aliveIndices_length (players : List Player) :
    (aliveIndices players).length = livingCount players := by
  unfold aliveIndices livingCount
  rw [← List.countP_eq_length_filter]
  have h := List.countP_map (fun p : Player => decide (p.getEnergy > 0))
    (fun i => getPlayer players i) (List.range players.length)
  rw [getPlayer_map_range] at h
  rw [h]
  rfl

/-- C11: with fewer than 2 living players an epoch, and hence any number of
epochs, ends without a fault for every fuel, returns the population
unchanged (every energy, last move and history) and returns the generator
unchanged (no draw). -/
theorem epoch_without_pairs (fuel : Nat) (players : List Player) (mt : Mt19937)
    (h : livingCount players < 2) :
    runEpoch fuel players mt = Except.ok (players, mt) ∧
    ∀ n, runEpochs fuel n players mt = Except.ok (players, mt) := by
  have h1 : runEpoch fuel players mt = Except.ok (players, mt) := by
    unfold runEpoch
    simp only [aliveIndices_length]
    rw [if_pos h]
  refine ⟨h1, fun n => ?_⟩
  induction n with
  | zero => rfl
  | succ n ih =>
    unfold runEpochs
    rw [h1]
    exact ih

/-- Witness for C11: one living player among three, even with fuel 0. -/
theorem epoch_without_pairs_witness :
    runEpoch 0 oneSurvivor countingMt = Except.ok (oneSurvivor, countingMt) :=
  (epoch_without_pairs 0 oneSurvivor countingMt (by decide)).1

/-- C15: for moves `a`, `b` in `{0, 1}`, `getPayoff a b` is `getPayoff b a`
with its components swapped. -/
theorem payoff_mirror (a b : Int) (ha : a = 0 ∨ a = 1) (hb : b = 0 ∨ b = 1) :
    getPayoff a b = (getPayoff b a).swap := by
  rcases ha with ha | ha <;> rcases hb with hb | hb <;> subst ha <;> subst hb <;> decide

/-- Witness for C15: the moves 0 and 1. -/
theorem payoff_mirror_witness : getPayoff 0 1 = (getPayoff 1 0).swap :=
  payoff_mirror 0 1 (Or.inl rfl) (Or.inr rfl)

theorem getPlayer_modifyPlayer (players : List Player) (i q : Nat) (f : Player → Player) :
    getPlayer (modifyPlayer players i f) q
      = if q = i ∧ q < players.length then f (getPlayer players q) else getPlayer players q := by
  unfold modifyPlayer getPlayer
  simp only [List.getD_eq_getElem?_getD]
  by_cases hq : q = i
  · subst hq
    by_cases hl : q < players.length
    · simp [hl]
    · have h1 : ∀ x : Player, (players.set q x)[q]? = none := fun x =>
        List.getElem?_eq_none (by simp; omega)
      simp [hl, h1, List.getElem?_eq_none (not_lt.mp hl)]
  · simp [hq, List.getElem?_set_ne (Ne.symm hq)]

theorem length_modifyPlayer (players : List Player) (i : Nat) (f : Player → Player) :
    (modifyPlayer players i f).length = players.length := by
  simp [modifyPlayer]

/-- C16: `updateOpponentInfo(o, m)` leaves the history of every other
opponent id and the id, strategy, energy and last move of the player
unchanged; and applied to `players[i]` it leaves every other position of
the population unchanged and keeps the population size. -/
theorem independent_views (p : Player) (o other m : Int) (hne : other ≠ o)
    (players : List Player) (i q : Nat) (hq : q ≠ i) :
    (p.updateOpponentInfo o m).getHistoryOfOpponent other = p.getHistoryOfOpponent other ∧
    (p.updateOpponentInfo o m).getId = p.getId ∧
    (p.updateOpponentInfo o m).getStrategy = p.getStrategy ∧
    (p.updateOpponentInfo o m).getEnergy = p.getEnergy ∧
    (p.updateOpponentInfo o m).getLastMove = p.getLastMove ∧
    getPlayer (modifyPlayer players i (fun x => x.updateOpponentInfo o m)) q
      = getPlayer players q ∧
    (modifyPlayer players i (fun x => x.updateOpponentInfo o m)).length = players.length := by
  refine ⟨getHistory_update_other p o other m hne, rfl, rfl, rfl, rfl, ?_,
    length_modifyPlayer _ _ _⟩
  rw [getPlayer_modifyPlayer, if_neg (fun h => hq h.1)]

/-- Witness for C16: recording a move of opponent 4 keeps the history of
opponent 3. -/
theorem independent_views_witness :
    ((recordAll (Player.Player 0 Strategy.WATCHER 10) [(3, 1), (4, 0)]).updateOpponentInfo 4 1).getHistoryOfOpponent 3
      = [1] :=
  (independent_views (recordAll (Player.Player 0 Strategy.WATCHER 10) [(3, 1), (4, 0)]) 4 3 1
    (by decide) oneSurvivor 0 1 (by decide)).1.trans (by decide)

/-- C13: for a strategy other than RANDOM_STR, `decideMove` returns the
generator unchanged, and two players with the same strategy and the same
history against the opponent return the same move for any two generators,
whatever their other fields. -/
theorem decision_purity (p q : Player) (g1 g2 : Mt19937) (o : Int)
    (hs : p.strategy = q.strategy) (hr : p.strategy ≠ Strategy.RANDOM_STR)
    (hh : p.getHistoryOfOpponent o = q.getHistoryOfOpponent o) :
    (p.decideMove g1 o).2 = g1 ∧ (q.decideMove g2 o).2 = g2 ∧
    (p.decideMove g1 o).1 = (q.decideMove g2 o).1 := by
  unfold Player.decideMove
  simp only [← hs, ← hh]
  cases hp : p.strategy with
  | COOPERATION => exact ⟨rfl, rfl, rfl⟩
  | BETRAYAL => exact ⟨rfl, rfl, rfl⟩
  | HITBACK => simp only; split <;> exact ⟨rfl, rfl, rfl⟩
  | WATCHER => simp only; split <;> exact ⟨rfl, rfl, rfl⟩
  | RANDOM_STR => exact absurd hp hr

/-- Witness for C13: two WATCHER players with different ids, energies, last
moves and other histories, but the same history against opponent 3. -/
theorem decision_purity_witness :
    ((recordAll (Player.Player 0 Strategy.WATCHER 10) [(3, 1), (4, 0)]).decideMove countingMt 3).1
      = (((recordAll (Player.Player 5 Strategy.WATCHER 2) [(3, 1), (6, 1)]).setLastMove
          1).decideMove { draws := fun _ => 1, pos := 3 } 3).1 :=
  (decision_purity (recordAll (Player.Player 0 Strategy.WATCHER 10) [(3, 1), (4, 0)])
    ((recordAll (Player.Player 5 Strategy.WATCHER 2) [(3, 1), (6, 1)]).setLastMove 1)
    countingMt { draws := fun _ => 1, pos := 3 } 3 rfl (by decide) (by decide)).2.2

theorem playMatch_length (players : List Player) (mt : Mt19937) (i j : Nat) :
    (playMatch players mt i j).1.length = players.length := by
  simp [playMatch, length_modifyPlayer]

theorem getPlayer_playMatch_other (players : List Player) (mt : Mt19937) (i j q : Nat)
    (hi : q ≠ i) (hj : q ≠ j) :
    getPlayer (playMatch players mt i j).1 q = getPlayer players q := by
  simp [playMatch, getPlayer_modifyPlayer, hi, hj]

theorem epochTurn_cases (fuel : Nat) (alive : List Nat) (k : Nat)
    (st res : List Player × Mt19937) (h : epochTurn fuel alive k st = Except.ok res) :
    res.1 = st.1 ∨
    ∃ r, pickOpponent fuel st.2 alive.length k = Except.ok r ∧
      0 < (getPlayer st.1 (alive.getD k 0)).getEnergy ∧
      0 < (getPlayer st.1 (alive.getD r.1.toNat 0)).getEnergy ∧
      res = playMatch st.1 r.2 (alive.getD k 0) (alive.getD r.1.toNat 0) := by
  unfold epochTurn at h
  simp only at h
  split at h
  · cases h; exact Or.inl rfl
  · rename_i hi
    cases hp : pickOpponent fuel st.2 alive.length k with
    | error e => rw [hp] at h; cases h
    | ok r =>
      rw [hp] at h
      simp only at h
      split at h
      · cases h; exact Or.inl rfl
      · rename_i hj
        cases h
        exact Or.inr ⟨r, rfl, by omega, by omega, rfl⟩

/-- Lifting of a reflexive and transitive relation from single matches between
living players to the loop over the turns of an epoch. -/
theorem epochLoop_lift (R : List Player → List Player → Prop)
    (hrefl : ∀ ps, R ps ps) (htrans : ∀ a b c, R a b → R b c → R a c)
    (hstep : ∀ ps mt i j, 0 < (getPlayer ps i).getEnergy → 0 < (getPlayer ps j).getEnergy →
      R ps (playMatch ps mt i j).1)
    (fuel : Nat) (alive ks : List Nat) (st res : List Player × Mt19937)
    (h : epochLoop fuel alive ks st = Except.ok res) : R st.1 res.1 := by
  induction ks generalizing st with
  | nil =>
    unfold epochLoop at h
    cases h
    exact hrefl _
  | cons k ks ih =>
    unfold epochLoop at h
    cases ht : epochTurn fuel alive k st with
    | error e => rw [ht] at h; cases h
    | ok st1 =>
      rw [ht] at h
      have h1 : R st.1 st1.1 := by
        rcases epochTurn_cases fuel alive k st st1 ht with he | ⟨r, -, hi, hj, he⟩
        · rw [he]; exact hrefl _
        · rw [he]; exact hstep _ _ _ _ hi hj
      exact htrans _ _ _ h1 (ih st1 h)

theorem runEpoch_lift (R : List Player → List Player → Prop)
    (hrefl : ∀ ps, R ps ps) (htrans : ∀ a b c, R a b → R b c → R a c)
    (hstep : ∀ ps mt i j, 0 < (getPlayer ps i).getEnergy → 0 < (getPlayer ps j).getEnergy →
      R ps (playMatch ps mt i j).1)
    (fuel : Nat) (players : List Player) (mt : Mt19937) (res : List Player × Mt19937)
    (h : runEpoch fuel players mt = Except.ok res) : R players res.1 := by
  unfold runEpoch at h
  simp only at h
  split at h
  · cases h; exact hrefl _
  · exact epochLoop_lift R hrefl htrans hstep fuel _ _ (players, mt) res h

theorem runEpochs_lift (R : List Player → List Player → Prop)
    (hrefl : ∀ ps, R ps ps) (htrans : ∀ a b c, R a b → R b c → R a c)
    (hstep : ∀ ps mt i j, 0 < (getPlayer ps i).getEnergy → 0 < (getPlayer ps j).getEnergy →
      R ps (playMatch ps mt i j).1)
    (fuel n : Nat) (players : List Player) (mt : Mt19937) (res : List Player × Mt19937)
    (h : runEpochs fuel n players mt = Except.ok res) : R players res.1 := by
  induction n generalizing players mt with
  | zero =>
    unfold runEpochs at h
    cases h
    exact hrefl _
  | succ n ih =>
    unfold runEpochs at h
    cases he : runEpoch fuel players mt with
    | error e => rw [he] at h; cases h
    | ok st =>
      rw [he] at h
      exact htrans _ _ _ (runEpoch_lift R hrefl htrans hstep fuel players mt st he)
        (ih st.1 st.2 h)

theorem playMatch_preserves {α : Type} (g : Player → α)
    (h1 : ∀ p d, g (Player.addEnergy p d) = g p)
    (h2 : ∀ p o m, g (Player.updateOpponentInfo p o m) = g p)
    (h3 : ∀ p m, g (Player.setLastMove p m) = g p)
    (players : List Player) (mt : Mt19937) (i j q : Nat) :
    g (getPlayer (playMatch players mt i j).1 q) = g (getPlayer players q) := by
  simp only [playMatch, getPlayer_modifyPlayer, length_modifyPlayer]
  split_ifs <;> simp only [h1, h2, h3]

theorem sameIdentities_playMatch (players : List Player) (mt : Mt19937) (i j : Nat) :
    SameIdentities players (playMatch players mt i j).1 :=
  ⟨playMatch_length players mt i j, fun q =>
    ⟨playMatch_preserves Player.getId (fun _ _ => rfl) (fun _ _ _ => rfl) (fun _ _ => rfl)
        players mt i j q,
      playMatch_preserves Player.getStrategy (fun _ _ => rfl) (fun _ _ _ => rfl)
        (fun _ _ => rfl) players mt i j q⟩⟩

theorem sameIdentities_refl (ps : List Player) : SameIdentities ps ps :=
  ⟨rfl, fun _ => ⟨rfl, rfl⟩⟩

theorem sameIdentities_trans (a b c : List Player) (h1 : SameIdentities a b)
    (h2 : SameIdentities b c) : SameIdentities a c :=
  ⟨h2.1.trans h1.1, fun q => ⟨(h2.2 q).1.trans (h1.2 q).1, (h2.2 q).2.trans (h1.2 q).2⟩⟩

theorem map_eq_of_getPlayer {α : Type} (g : Player → α) (a b : List Player)
    (hlen : b.length = a.length) (h : ∀ q, g (getPlayer b q) = g (getPlayer a q)) :
    b.map g = a.map g := by
  apply List.ext_getElem
  · simp [hlen]
  · intro n h1 h2
    simp only [List.length_map] at h1 h2
    have := h n
    simp only [getPlayer, List.getD_eq_getElem?_getD, List.getElem?_eq_getElem h1,
      List.getElem?_eq_getElem h2, Option.getD_some] at this
    simpa using this

/-- C14: an epoch, and any number of epochs, keeps the number of players and,
at every position, the id and the strategy; so the list of ids is the
same, and ids that were unique stay unique. -/
theorem identity_stability (fuel : Nat) (players : List Player) (mt : Mt19937) :
    (∀ st, runEpoch fuel players mt = Except.ok st →
      SameIdentities players st.1 ∧
      st.1.map Player.getId = players.map Player.getId ∧
      st.1.map Player.getStrategy = players.map Player.getStrategy ∧
      ((players.map Player.getId).Nodup → (st.1.map Player.getId).Nodup)) ∧
    (∀ n st, runEpochs fuel n players mt = Except.ok st →
      SameIdentities players st.1 ∧
      st.1.map Player.getId = players.map Player.getId ∧
      st.1.map Player.getStrategy = players.map Player.getStrategy ∧
      ((players.map Player.getId).Nodup → (st.1.map Player.getId).Nodup)) := by
  have key : ∀ res : List Player, SameIdentities players res →
      SameIdentities players res ∧
      res.map Player.getId = players.map Player.getId ∧
      res.map Player.getStrategy = players.map Player.getStrategy ∧
      ((players.map Player.getId).Nodup → (res.map Player.getId).Nodup) := by
    intro res h
    have hid := map_eq_of_getPlayer Player.getId players res h.1 (fun q => (h.2 q).1)
    have hst := map_eq_of_getPlayer Player.getStrategy players res h.1 (fun q => (h.2 q).2)
    exact ⟨h, hid, hst, fun hn => by rw [hid]; exact hn⟩
  refine ⟨fun st h => key _ ?_, fun n st h => key _ ?_⟩
  · exact runEpoch_lift SameIdentities sameIdentities_refl sameIdentities_trans
      (fun ps g i j _ _ => sameIdentities_playMatch ps g i j) fuel players mt st h
  · exact runEpochs_lift SameIdentities sameIdentities_refl sameIdentities_trans
      (fun ps g i j _ _ => sameIdentities_playMatch ps g i j) fuel n players mt st h

/-- Witness for C14: after one epoch of the cooperator and the betrayer the
ids are still 0 and 1. -/
theorem identity_stability_witness :
    ∃ st, runEpochs 2 1 cooperatorAndBetrayer countingMt = Except.ok st ∧
      st.1.map Player.getId = [0, 1] :=
  ⟨_, rfl, ((identity_stability 2 cooperatorAndBetrayer countingMt).2 1 _ rfl).2.1⟩

theorem frozen_refl (ps : List Player) : Frozen ps ps := fun _ _ => rfl

theorem frozen_trans (a b c : List Player) (h1 : Frozen a b) (h2 : Frozen b c) : Frozen a c := by
  intro q hq
  have hb := h1 q hq
  rw [h2 q (by rw [hb]; exact hq), hb]

theorem frozen_playMatch (ps : List Player) (mt : Mt19937) (i j : Nat)
    (hi : 0 < (getPlayer ps i).getEnergy) (hj : 0 < (getPlayer ps j).getEnergy) :
    Frozen ps (playMatch ps mt i j).1 := by
  intro q hq
  apply getPlayer_playMatch_other
  · intro h; rw [h] at hq; omega
  · intro h; rw [h] at hq; omega

/-- C19: a player whose energy is not positive is left unchanged (energy, last
move and every history) by every turn, by the rest of the epoch from any
turn on, by a whole epoch, by any number of further epochs, and by the
rest of an epoch followed by further epochs. -/
theorem eliminated_frozen (fuel : Nat) :
    (∀ alive k st res, epochTurn fuel alive k st = Except.ok res → Frozen st.1 res.1) ∧
    (∀ alive ks st res, epochLoop fuel alive ks st = Except.ok res → Frozen st.1 res.1) ∧
    (∀ players mt res, runEpoch fuel players mt = Except.ok res → Frozen players res.1) ∧
    (∀ n players mt res, runEpochs fuel n players mt = Except.ok res → Frozen players res.1) ∧
    (∀ alive ks st mid n res, epochLoop fuel alive ks st = Except.ok mid →
      runEpochs fuel n mid.1 mid.2 = Except.ok res → Frozen st.1 res.1) := by
  have hloop : ∀ alive ks st res, epochLoop fuel alive ks st = Except.ok res →
      Frozen st.1 res.1 := fun alive ks st res h =>
    epochLoop_lift Frozen frozen_refl frozen_trans frozen_playMatch fuel alive ks st res h
  have hrun : ∀ n players mt res, runEpochs fuel n players mt = Except.ok res →
      Frozen players res.1 := fun n players mt res h =>
    runEpochs_lift Frozen frozen_refl frozen_trans frozen_playMatch fuel n players mt res h
  refine ⟨fun alive k st res h => ?_, hloop, fun players mt res h => ?_, hrun,
    fun alive ks st mid n res h1 h2 => frozen_trans _ _ _ (hloop _ _ _ _ h1) (hrun _ _ _ _ h2)⟩
  · rcases epochTurn_cases fuel alive k st res h with he | ⟨r, -, hi, hj, he⟩
    · rw [he]; exact frozen_refl _
    · rw [he]; exact frozen_playMatch _ _ _ _ hi hj
  · exact runEpoch_lift Frozen frozen_refl frozen_trans frozen_playMatch fuel players mt res h

/-- Witness for C19: the eliminated player at position 0 is unchanged after
three epochs in which the two living players meet. -/
theorem eliminated_frozen_witness :
    ∃ st, runEpochs 2 3 withEliminated countingMt = Except.ok st ∧
      getPlayer st.1 0 = Player.Player 0 Strategy.BETRAYAL 0 ∧
      energies st.1 ≠ energies withEliminated :=
  ⟨_, rfl, (eliminated_frozen 2).2.2.2.1 3 withEliminated countingMt _ rfl 0 (by decide),
    by decide⟩

theorem mem_iff_getPlayer (players : List Player) (p : Player) :
    p ∈ players ↔ ∃ q, q < players.length ∧ getPlayer players q = p := by
  rw [List.mem_iff_getElem]
  constructor
  · rintro ⟨n, h, rfl⟩
    exact ⟨n, h, by simp [getPlayer, List.getD_eq_getElem?_getD, List.getElem?_eq_getElem h]⟩
  · rintro ⟨q, h, rfl⟩
    exact ⟨q, h, by simp [getPlayer, List.getD_eq_getElem?_getD, List.getElem?_eq_getElem h]⟩

theorem getPayoff_bounds (a b : Int) :
    -3 ≤ (getPayoff a b).1 ∧ (getPayoff a b).1 ≤ 3 ∧
    -3 ≤ (getPayoff a b).2 ∧ (getPayoff a b).2 ≤ 3 ∧
    -2 ≤ (getPayoff a b).1 + (getPayoff a b).2 ∧
    (getPayoff a b).1 + (getPayoff a b).2 ≤ 2 := by
  unfold getPayoff
  split_ifs <;> decide

theorem playMatch_energy (players : List Player) (mt : Mt19937) (i j q : Nat) :
    (getPlayer (playMatch players mt i j).1 q).getEnergy
      = if q = j ∧ q < players.length then
          wrapInt32 ((if q = i ∧ q < players.length then
              wrapInt32 ((getPlayer players q).getEnergy
                + (getPayoff (initiatorMove players mt i j) (opponentMove players mt i j)).1)
            else (getPlayer players q).getEnergy)
            + (getPayoff (initiatorMove players mt i j) (opponentMove players mt i j)).2)
        else if q = i ∧ q < players.length then
          wrapInt32 ((getPlayer players q).getEnergy
            + (getPayoff (initiatorMove players mt i j) (opponentMove players mt i j)).1)
        else (getPlayer players q).getEnergy := by
  simp only [playMatch, getPlayer_modifyPlayer, length_modifyPlayer, initiatorMove, opponentMove]
  split_ifs <;>
    simp [Player.getEnergy, Player.addEnergy, Player.updateOpponentInfo, Player.setLastMove]

theorem energyBetween_mono (lo hi hi2 : Int) (h : hi ≤ hi2) (ps : List Player)
    (hb : EnergyBetween lo hi ps) : EnergyBetween lo hi2 ps :=
  fun q => ⟨(hb q).1, le_trans (hb q).2 h⟩

/-- A match between two living players keeps every energy at or above a floor
`lo ≤ -2` and raises no energy by more than 3, provided no energy is above
`2^31 - 1 - 3` (so that no addition overflows). -/
theorem energyBetween_playMatch (lo hi : Int) (hlo : lo ≤ -2) (hhi : hi + 3 ≤ 2147483647)
    (ps : List Player) (mt : Mt19937) (i j : Nat)
    (hi1 : 0 < (getPlayer ps i).getEnergy) (hj1 : 0 < (getPlayer ps j).getEnergy)
    (h : EnergyBetween lo hi ps) : EnergyBetween lo (hi + 3) (playMatch ps mt i j).1 := by
  intro q
  rw [playMatch_energy]
  obtain ⟨b1, b2, b3, b4, b5, b6⟩ :=
    getPayoff_bounds (initiatorMove ps mt i j) (opponentMove ps mt i j)
  obtain ⟨hq1, hq2⟩ := h q
  split_ifs with h1 h2 h2
  · rw [← h1.1] at hj1
    have hin : wrapInt32 ((getPlayer ps q).getEnergy
        + (getPayoff (initiatorMove ps mt i j) (opponentMove ps mt i j)).1)
        = (getPlayer ps q).getEnergy
          + (getPayoff (initiatorMove ps mt i j) (opponentMove ps mt i j)).1 :=
      wrapInt32_of_range _ (by omega) (by omega)
    rw [hin, wrapInt32_of_range _ (by omega) (by omega)]
    constructor <;> omega
  · rw [← h1.1] at hj1
    rw [wrapInt32_of_range _ (by omega) (by omega)]
    constructor <;> omega
  · rw [← h2.1] at hi1
    rw [wrapInt32_of_range _ (by omega) (by omega)]
    constructor <;> omega
  · constructor <;> omega

theorem epochTurn_energyBetween (lo hi : Int) (hlo : lo ≤ -2) (hhi : hi + 3 ≤ 2147483647)
    (fuel : Nat) (alive : List Nat) (k : Nat) (st res : List Player × Mt19937)
    (h : epochTurn fuel alive k st = Except.ok res) (hb : EnergyBetween lo hi st.1) :
    EnergyBetween lo (hi + 3) res.1 := by
  rcases epochTurn_cases fuel alive k st res h with he | ⟨r, -, h1, h2, he⟩
  · rw [he]; exact energyBetween_mono lo hi _ (by omega) _ hb
  · rw [he]; exact energyBetween_playMatch lo hi hlo hhi _ _ _ _ h1 h2 hb

theorem epochLoop_energyBetween (lo : Int) (hlo : lo ≤ -2) (fuel : Nat) (alive ks : List Nat)
    (hi : Int) (st res : List Player × Mt19937)
    (hhi : hi + 3 * ks.length ≤ 2147483647)
    (h : epochLoop fuel alive ks st = Except.ok res) (hb : EnergyBetween lo hi st.1) :
    EnergyBetween lo (hi + 3 * ks.length) res.1 := by
  induction ks generalizing st hi with
  | nil =>
    unfold epochLoop at h
    cases h
    simpa using hb
  | cons k ks ih =>
    simp only [List.length_cons, Nat.cast_add, Nat.cast_one] at hhi ⊢
    unfold epochLoop at h
    cases ht : epochTurn fuel alive k st with
    | error e => rw [ht] at h; cases h
    | ok st1 =>
      rw [ht] at h
      have h1 := epochTurn_energyBetween lo hi hlo (by omega) fuel alive k st st1 ht hb
      have h2 := ih (hi + 3) st1 (by omega) h h1
      exact energyBetween_mono lo _ _ (by omega) _ h2

theorem aliveIndices_length_le (players : List Player) :
    (aliveIndices players).length ≤ players.length := by
  unfold aliveIndices
  exact le_trans (List.length_filter_le _ _) (by simp)

theorem runEpoch_length (fuel : Nat) (players : List Player) (mt : Mt19937)
    (res : List Player × Mt19937) (h : runEpoch fuel players mt = Except.ok res) :
    res.1.length = players.length :=
  runEpoch_lift (fun a b => b.length = a.length) (fun _ => rfl)
    (fun _ _ _ h1 h2 => h2.trans h1) (fun ps g i j _ _ => playMatch_length ps g i j)
    fuel players mt res h

theorem runEpoch_energyBetween (lo : Int) (hlo : lo ≤ -2) (fuel : Nat) (players : List Player)
    (mt : Mt19937) (hi : Int) (res : List Player × Mt19937)
    (hhi : hi + 3 * players.length ≤ 2147483647)
    (h : runEpoch fuel players mt = Except.ok res) (hb : EnergyBetween lo hi players) :
    EnergyBetween lo (hi + 3 * players.length) res.1 := by
  have hle := aliveIndices_length_le players
  unfold runEpoch at h
  simp only at h
  split at h
  · cases h
    exact energyBetween_mono lo hi _ (by omega) _ hb
  · have h1 := epochLoop_energyBetween lo hlo fuel (aliveIndices players)
      (List.range (aliveIndices players).length) hi (players, mt) res
      (by simp only [List.length_range]; omega) h hb
    simp only [List.length_range] at h1
    exact energyBetween_mono lo _ _ (by omega) _ h1

theorem runEpochs_energyBetween (lo : Int) (hlo : lo ≤ -2) (fuel n : Nat)
    (players : List Player) (mt : Mt19937) (hi : Int) (res : List Player × Mt19937)
    (hhi : hi + 3 * players.length * n ≤ 2147483647)
    (h : runEpochs fuel n players mt = Except.ok res) (hb : EnergyBetween lo hi players) :
    EnergyBetween lo (hi + 3 * players.length * n) res.1 ∧ res.1.length = players.length := by
  induction n generalizing players mt hi with
  | zero =>
    unfold runEpochs at h
    cases h
    exact ⟨by simpa using hb, rfl⟩
  | succ n ih =>
    unfold runEpochs at h
    cases he : runEpoch fuel players mt with
    | error e => rw [he] at h; cases h
    | ok st =>
      rw [he] at h
      have hlen := runEpoch_length fuel players mt st he
      have hnn : (0 : Int) ≤ 3 * players.length * n := by positivity
      have hexp : (3 : Int) * players.length * ((n + 1 : Nat) : Int)
          = 3 * players.length + 3 * players.length * n := by push_cast; ring
      rw [hexp] at hhi ⊢
      have h1 := runEpoch_energyBetween lo hlo fuel players mt hi st (by omega) he hb
      obtain ⟨h2, h3⟩ := ih st.1 st.2 (hi + 3 * players.length) (by rw [hlen]; omega) h h1
      rw [hlen] at h2
      exact ⟨energyBetween_mono lo _ _ (by omega) _ h2, h3.trans hlen⟩

theorem getPlayer_default_energy (players : List Player) (q : Nat) (h : players.length ≤ q) :
    (getPlayer players q).getEnergy = 0 := by
  simp [getPlayer, List.getD_eq_getElem?_getD, List.getElem?_eq_none h, Player.getEnergy,
    Player.Player]

theorem energyBetween_createPlayers (c : Config) :
    EnergyBetween (min c.initialEnergy (-2)) (max c.initialEnergy 0) (createPlayers c) := by
  intro q
  by_cases hq : q < (createPlayers c).length
  · rw [(createPlayers_fresh c q hq).2.1]
    exact ⟨min_le_left _ _, le_max_left _ _⟩
  · rw [getPlayer_default_energy _ _ (not_lt.mp hq)]
    exact ⟨le_trans (min_le_right _ _) (by decide), le_max_right _ _⟩

/-- C20 (amended): in a population of `P` players constructed with initial
energy `e0`, after `n` epochs with `max e0 0 + 3 * P * n ≤ 2^31 - 1` (no
addition to a 32-bit energy can have overflowed) every player has energy at
least `min e0 (-2)`, hence at least -2 when `e0 ≥ 1`, and at most
`max e0 0 + 3 * P * n`; the same holds after further turns of the next
epoch within the bound.  A single match between living players keeps the
floor whenever no energy exceeds `2^31 - 1 - 3`. -/
theorem energy_floor (c : Config) (players : List Player)
    (hc : initPlayers c = Except.ok players)
    (fuel n : Nat) (mt : Mt19937) (st : List Player × Mt19937)
    (hrun : runEpochs fuel n players mt = Except.ok st)
    (hbound : max c.initialEnergy 0 + 3 * players.length * n ≤ 2147483647) :
    (∀ p ∈ st.1, min c.initialEnergy (-2) ≤ p.getEnergy ∧
      p.getEnergy ≤ max c.initialEnergy 0 + 3 * players.length * n) ∧
    (1 ≤ c.initialEnergy → ∀ p ∈ st.1, -2 ≤ p.getEnergy) ∧
    (∀ alive ks res,
      max c.initialEnergy 0 + 3 * players.length * n + 3 * ks.length ≤ 2147483647 →
      epochLoop fuel alive ks st = Except.ok res →
      ∀ p ∈ res.1, min c.initialEnergy (-2) ≤ p.getEnergy) ∧
    (∀ (ps : List Player) (g : Mt19937) (i j : Nat) (hi : Int), hi + 3 ≤ 2147483647 →
      0 < (getPlayer ps i).getEnergy → 0 < (getPlayer ps j).getEnergy →
      EnergyBetween (min c.initialEnergy (-2)) hi ps →
      EnergyBetween (min c.initialEnergy (-2)) (hi + 3) (playMatch ps g i j).1) := by
  have hp : players = createPlayers c := by
    unfold initPlayers at hc
    split at hc
    · cases hc
    · cases hc; rfl
  have hb : min c.initialEnergy (-2) ≤ -2 := min_le_right _ _
  have h0 : EnergyBetween (min c.initialEnergy (-2)) (max c.initialEnergy 0) players := by
    rw [hp]; exact energyBetween_createPlayers c
  obtain ⟨h1, -⟩ := runEpochs_energyBetween _ hb fuel n players mt _ st hbound hrun h0
  have hmem : ∀ (ps : List Player) (hi : Int),
      EnergyBetween (min c.initialEnergy (-2)) hi ps →
      ∀ p ∈ ps, min c.initialEnergy (-2) ≤ p.getEnergy ∧ p.getEnergy ≤ hi := by
    intro ps hi h p hpm
    obtain ⟨q, -, rfl⟩ := (mem_iff_getPlayer ps p).mp hpm
    exact h q
  refine ⟨hmem _ _ h1, fun he p hpm => ?_, fun alive ks res hk hl p hpm => ?_,
    fun ps g i j hi hhi h1 h2 h3 => energyBetween_playMatch _ hi hb hhi ps g i j h1 h2 h3⟩
  · have := (hmem _ _ h1 p hpm).1
    rw [min_eq_right (by omega)] at this
    exact this
  · exact (hmem _ _ (epochLoop_energyBetween _ hb fuel alive ks _ st res hk hl h1) p hpm).1

theorem lowEnergyConfig_players :
    createPlayers lowEnergyConfig =
      [Player.Player 0 Strategy.COOPERATION 1, Player.Player 1 Strategy.BETRAYAL 1] := by
  have h1 : castInt (mulDouble 2 (1 / 2)) = 1 := by
    rw [mulDouble_of_int 2 (1 / 2) 1 (by norm_num) (by decide) (by decide), castInt_intCast]
  have h0 : castInt (mulDouble 2 0) = 0 := by
    rw [mulDouble_of_int 2 0 0 (by norm_num) (by decide) (by decide), castInt_intCast]
  simp only [createPlayers, countCoopP, countBetrayP, countHitbackP, countWatcherP, countRandomP,
    sumCount, lowEnergyConfig, h1, h0]
  rfl

theorem maxEnergyConfig_players :
    createPlayers maxEnergyConfig =
      [Player.Player 0 Strategy.COOPERATION 2147483647,
        Player.Player 1 Strategy.COOPERATION 2147483647] := by
  have h2 : castInt (mulDouble 2 1) = 2 := by
    rw [mulDouble_of_int 2 1 2 (by norm_num) (by decide) (by decide), castInt_intCast]
  have h0 : castInt (mulDouble 2 0) = 0 := by
    rw [mulDouble_of_int 2 0 0 (by norm_num) (by decide) (by decide), castInt_intCast]
  simp only [createPlayers, countCoopP, countBetrayP, countHitbackP, countWatcherP, countRandomP,
    sumCount, maxEnergyConfig, h2, h0]
  rfl

/-- Witness for C20: with initial energy 1 the cooperator falls to -2, the
floor, in its first match against the betrayer. -/
theorem energy_floor_witness :
    ∃ players st, initPlayers lowEnergyConfig = Except.ok players ∧
      runEpochs 2 1 players countingMt = Except.ok st ∧
      energies st.1 = [-2, 4] ∧ ∀ p ∈ st.1, -2 ≤ p.getEnergy := by
  have hc : initPlayers lowEnergyConfig = Except.ok
      [Player.Player 0 Strategy.COOPERATION 1, Player.Player 1 Strategy.BETRAYAL 1] := by
    rw [← lowEnergyConfig_players]
    simp [initPlayers, lowEnergyConfig]
  exact ⟨_, _, hc, rfl, by decide,
    (energy_floor lowEnergyConfig _ hc 2 1 countingMt _ rfl (by decide)).2.1 (by decide)⟩

/-- C20 as stated fails: two COOPERATION players constructed with initial
energy `2^31 - 1`; the first match adds 1 to both 32-bit energies, which
wrap to `-2^31`, below the floor `min e0 (-2) = -2`. -/
theorem energy_floor_overflow :
    ∃ players st, initPlayers maxEnergyConfig = Except.ok players ∧
      runEpochs 2 1 players countingMt = Except.ok st ∧
      energies st.1 = [-2147483648, -2147483648] ∧
      ¬ (∀ p ∈ st.1, min maxEnergyConfig.initialEnergy (-2) ≤ p.getEnergy) := by
  have hc : initPlayers maxEnergyConfig = Except.ok
      [Player.Player 0 Strategy.COOPERATION 2147483647,
        Player.Player 1 Strategy.COOPERATION 2147483647] := by
    rw [← maxEnergyConfig_players]
    simp [initPlayers, maxEnergyConfig]
  exact ⟨_, _, hc, rfl, by decide, by decide⟩

theorem mapFind_mem (m : List (Int × List Int)) (key : Int) (h : List Int)
    (hf : mapFind m key = some h) : (key, h) ∈ m := by
  induction m with
  | nil => simp [mapFind] at hf
  | cons e rest ih =>
    obtain ⟨k, w⟩ := e
    unfold mapFind at hf
    split at hf
    · rename_i hk
      cases hf
      rw [hk]
      exact List.mem_cons_self _ _
    · exact List.mem_cons_of_mem _ (ih hf)

theorem mapStore_mem (key : Int) (v : List Int) (m : List (Int × List Int))
    (e : Int × List Int) (h : e ∈ mapStore key v m) : e = (key, v) ∨ e ∈ m := by
  induction m with
  | nil =>
    simp only [mapStore, List.mem_singleton] at h
    exact Or.inl h
  | cons x rest ih =>
    obtain ⟨k, w⟩ := x
    unfold mapStore at h
    split at h
    · rcases List.mem_cons.mp h with h1 | h1
      · exact Or.inl h1
      · exact Or.inr (List.mem_cons_of_mem _ h1)
    · rcases List.mem_cons.mp h with h1 | h1
      · exact Or.inr (by rw [h1]; exact List.mem_cons_self _ _)
      · rcases ih h1 with h2 | h2
        · exact Or.inl h2
        · exact Or.inr (List.mem_cons_of_mem _ h2)

theorem getHistory_binary (p : Player) (hp : MovesBinary p) (o : Int) :
    ∀ m ∈ p.getHistoryOfOpponent o, BinaryMove m := by
  unfold Player.getHistoryOfOpponent
  cases hf : mapFind p.opponentHistory o with
  | none => intro m hm; simp at hm
  | some h => exact hp.2 _ (mapFind_mem _ _ _ hf)

theorem uniformInt_binary (mt : Mt19937) : BinaryMove (uniformInt 0 1 mt).1 := by
  have h := uniformInt_range 0 1 mt (by decide)
  unfold BinaryMove
  omega

theorem decideMove_binary (p : Player) (hp : MovesBinary p) (g : Mt19937) (o : Int) :
    BinaryMove (p.decideMove g o).1 := by
  unfold Player.decideMove
  simp only
  cases p.strategy with
  | COOPERATION => exact Or.inl rfl
  | BETRAYAL => exact Or.inr rfl
  | HITBACK =>
    simp only
    split
    · exact Or.inl rfl
    · rename_i hne
      have hb := getHistory_binary p hp o
      cases hh : p.getHistoryOfOpponent o with
      | nil => simp [hh] at hne
      | cons x t =>
        rw [hh] at hb
        apply hb
        rw [List.getLastD_eq_getLast?, List.getLast?_eq_getLast _ (List.cons_ne_nil _ _)]
        exact List.getLast_mem _
  | WATCHER =>
    simp only
    split
    · exact Or.inr rfl
    · exact Or.inl rfl
  | RANDOM_STR => exact uniformInt_binary g

theorem movesBinary_update (p : Player) (hp : MovesBinary p) (o m : Int) (hm : BinaryMove m) :
    MovesBinary (p.updateOpponentInfo o m) := by
  refine ⟨hp.1, ?_⟩
  intro e he x hx
  unfold Player.updateOpponentInfo at he
  simp only at he
  rcases mapStore_mem _ _ _ _ he with h1 | h1
  · rw [h1] at hx
    simp only at hx
    have hall : ∀ y ∈ (mapFind p.opponentHistory o).getD [] ++ [m], BinaryMove y := by
      intro y hy
      rcases List.mem_append.mp hy with h2 | h2
      · have := getHistory_binary p hp o y
        unfold Player.getHistoryOfOpponent at this
        cases hf : mapFind p.opponentHistory o with
        | none => simp [hf] at h2
        | some h => rw [hf] at h2 this; exact this h2
      · rw [List.mem_singleton.mp h2]; exact hm
    split at hx
    · exact hall x (List.mem_of_mem_tail hx)
    · exact hall x hx
  · exact hp.2 e h1 x hx

theorem allMovesBinary_modify (players : List Player) (i : Nat) (f : Player → Player)
    (hf : ∀ p, MovesBinary p → MovesBinary (f p)) (h : AllMovesBinary players) :
    AllMovesBinary (modifyPlayer players i f) := by
  intro q
  rw [getPlayer_modifyPlayer]
  split
  · exact hf _ (h q)
  · exact h q

theorem allMovesBinary_playMatch (players : List Player) (mt : Mt19937) (i j : Nat)
    (h : AllMovesBinary players) : AllMovesBinary (playMatch players mt i j).1 := by
  have hI : BinaryMove ((getPlayer players i).decideMove mt j).1 :=
    decideMove_binary _ (h i) _ _
  have hJ : BinaryMove ((getPlayer players j).decideMove
      ((getPlayer players i).decideMove mt j).2 i).1 := decideMove_binary _ (h j) _ _
  unfold playMatch
  simp only
  refine allMovesBinary_modify _ _ _ (fun p hp => ?_) ?_
  · exact ⟨hJ, hp.2⟩
  refine allMovesBinary_modify _ _ _ (fun p hp => ?_) ?_
  · exact ⟨hI, hp.2⟩
  refine allMovesBinary_modify _ _ _ (fun p hp => ?_) ?_
  · exact movesBinary_update p hp _ _ hI
  refine allMovesBinary_modify _ _ _ (fun p hp => ?_) ?_
  · exact movesBinary_update p hp _ _ hJ
  refine allMovesBinary_modify _ _ _ (fun p hp => ?_) ?_
  · exact ⟨hp.1, hp.2⟩
  refine allMovesBinary_modify _ _ _ (fun p hp => ?_) ?_
  · exact ⟨hp.1, hp.2⟩
  exact h

theorem allMovesBinary_createPlayers (c : Config) : AllMovesBinary (createPlayers c) := by
  intro q
  by_cases hq : q < (createPlayers c).length
  · obtain ⟨-, -, h3, h4⟩ := createPlayers_fresh c q hq
    refine ⟨Or.inl h3, ?_⟩
    rw [h4]
    intro e he
    simp at he
  · have : getPlayer (createPlayers c) q = Player.Player 0 Strategy.COOPERATION 0 := by
      simp [getPlayer, List.getD_eq_getElem?_getD, List.getElem?_eq_none (not_lt.mp hq)]
    rw [this]
    refine ⟨Or.inl rfl, ?_⟩
    intro e he
    simp [Player.Player] at he

/-- C12: in a constructed population, after any number of epochs and after any
further turns of the next epoch, every player has a last move of 0 or 1,
every entry of every stored history is 0 or 1, and `decideMove` of every
player returns 0 or 1 for every generator and opponent. -/
theorem moves_binary (c : Config) (players : List Player)
    (hc : initPlayers c = Except.ok players)
    (fuel n : Nat) (mt : Mt19937) (st : List Player × Mt19937)
    (hrun : runEpochs fuel n players mt = Except.ok st) :
    (∀ p ∈ st.1, MovesBinary p ∧ ∀ g o, BinaryMove (p.decideMove g o).1) ∧
    (∀ alive ks res, epochLoop fuel alive ks st = Except.ok res →
      ∀ p ∈ res.1, MovesBinary p ∧ ∀ g o, BinaryMove (p.decideMove g o).1) := by
  have hp : players = createPlayers c := by
    unfold initPlayers at hc
    split at hc
    · cases hc
    · cases hc; rfl
  have h0 : AllMovesBinary players := by
    rw [hp]; exact allMovesBinary_createPlayers c
  have h1 : AllMovesBinary st.1 :=
    runEpochs_lift (fun a b => AllMovesBinary a → AllMovesBinary b)
      (fun _ h => h) (fun _ _ _ f g h => g (f h))
      (fun ps g i j _ _ h => allMovesBinary_playMatch ps g i j h)
      fuel n players mt st hrun h0
  have hmem : ∀ ps : List Player, AllMovesBinary ps →
      ∀ p ∈ ps, MovesBinary p ∧ ∀ g o, BinaryMove (p.decideMove g o).1 := by
    intro ps h p hpm
    obtain ⟨q, -, rfl⟩ := (mem_iff_getPlayer ps p).mp hpm
    exact ⟨h q, fun g o => decideMove_binary _ (h q) g o⟩
  refine ⟨hmem _ h1, fun alive ks res hl => hmem _ ?_⟩
  exact epochLoop_lift (fun a b => AllMovesBinary a → AllMovesBinary b)
    (fun _ h => h) (fun _ _ _ f g h => g (f h))
    (fun ps g i j _ _ h => allMovesBinary_playMatch ps g i j h)
    fuel alive ks st res hl h1

theorem randomPairConfig_players :
    createPlayers randomPairConfig =
      [Player.Player 0 Strategy.RANDOM_STR 10, Player.Player 1 Strategy.RANDOM_STR 10] := by
  have h2 : castInt (mulDouble 2 1) = 2 := by
    rw [mulDouble_of_int 2 1 2 (by norm_num) (by decide) (by decide), castInt_intCast]
  have h0 : castInt (mulDouble 2 0) = 0 := by
    rw [mulDouble_of_int 2 0 0 (by norm_num) (by decide) (by decide), castInt_intCast]
  simp only [createPlayers, countCoopP, countBetrayP, countHitbackP, countWatcherP, countRandomP,
    sumCount, randomPairConfig, h2, h0]
  rfl

/-- Witness for C12: two RANDOM_STR players after three epochs on the counting
generator. -/
theorem moves_binary_witness :
    ∃ players st, initPlayers randomPairConfig = Except.ok players ∧
      runEpochs 3 3 players countingMt = Except.ok st ∧
      st.1.map Player.getLastMove = [0, 1] ∧
      ∀ p ∈ st.1, MovesBinary p ∧ ∀ g o, BinaryMove (p.decideMove g o).1 := by
  have hc : initPlayers randomPairConfig = Except.ok
      [Player.Player 0 Strategy.RANDOM_STR 10, Player.Player 1 Strategy.RANDOM_STR 10] := by
    rw [← randomPairConfig_players]
    simp [initPlayers, randomPairConfig]
  exact ⟨_, _, hc, rfl, by decide,
    (moves_binary randomPairConfig _ hc 3 3 countingMt _ rfl).1⟩

theorem aliveIndices_nodup (players : List Player) : (aliveIndices players).Nodup :=
  List.Nodup.filter _ (List.nodup_range _)

theorem aliveIndices_mem (players : List Player) (i : Nat) (h : i ∈ aliveIndices players) :
    i < players.length ∧ 0 < (getPlayer players i).getEnergy := by
  unfold aliveIndices at h
  rw [List.mem_filter, List.mem_range] at h
  exact ⟨h.1, by simpa using h.2⟩

theorem getD_eq_of_lt (l : List Nat) (k : Nat) (h : k < l.length) :
    l[k]? = some (l.getD k 0) ∧ l.getD k 0 ∈ l := by
  have e : l.getD k 0 = l[k] := by
    simp [List.getD_eq_getElem?_getD, List.getElem?_eq_getElem h]
  rw [e]
  exact ⟨List.getElem?_eq_getElem h, List.getElem_mem h⟩

theorem getD_ne_of_nodup (l : List Nat) (hn : l.Nodup) (a b : Nat) (ha : a < l.length)
    (hb : b < l.length) (hab : a ≠ b) : l.getD a 0 ≠ l.getD b 0 := by
  have ea : l.getD a 0 = l[a] := by
    simp [List.getD_eq_getElem?_getD, List.getElem?_eq_getElem ha]
  have eb : l.getD b 0 = l[b] := by
    simp [List.getD_eq_getElem?_getD, List.getElem?_eq_getElem hb]
  rw [ea, eb]
  intro h
  exact hab ((List.Nodup.getElem_inj_iff hn).mp h)

theorem epochTurn_match (fuel : Nat) (alive : List Nat) (hn : alive.Nodup) (k : Nat)
    (st res : List Player × Mt19937) (hk : k < alive.length)
    (h : epochTurn fuel alive k st = Except.ok res) :
    res.1 = st.1 ∨
    ∃ (r : Int × Mt19937) (i j : Nat),
      pickOpponent fuel st.2 alive.length k = Except.ok r ∧
      0 ≤ r.1 ∧ r.1 < alive.length ∧ r.1 ≠ k ∧
      alive[k]? = some i ∧ alive[r.1.toNat]? = some j ∧ i ∈ alive ∧ j ∈ alive ∧ i ≠ j ∧
      0 < (getPlayer st.1 i).getEnergy ∧ 0 < (getPlayer st.1 j).getEnergy ∧
      res = playMatch st.1 r.2 i j := by
  rcases epochTurn_cases fuel alive k st res h with he | ⟨r, hp, hi, hj, he⟩
  · exact Or.inl he
  · obtain ⟨h1, h2, h3⟩ := pickOpponent_ok fuel st.2 alive.length k r (by omega) hp
    have hlt : r.1.toNat < alive.length := by omega
    have hne : r.1.toNat ≠ k := by omega
    obtain ⟨ek, mk⟩ := getD_eq_of_lt alive k hk
    obtain ⟨ej, mj⟩ := getD_eq_of_lt alive r.1.toNat hlt
    exact Or.inr ⟨r, _, _, hp, h2, h3, h1, ek, ej, mk, mj,
      getD_ne_of_nodup alive hn k r.1.toNat hk hlt (Ne.symm hne), hi, hj, he⟩

theorem epochLoop_sequence (fuel : Nat) (alive : List Nat) (hn : alive.Nodup) (ks : List Nat)
    (hks : ∀ k ∈ ks, k < alive.length) (st res : List Player × Mt19937)
    (h : epochLoop fuel alive ks st = Except.ok res) : MatchSequence alive st.1 res.1 := by
  induction ks generalizing st with
  | nil =>
    unfold epochLoop at h
    cases h
    exact MatchSequence.done _
  | cons k ks ih =>
    unfold epochLoop at h
    cases ht : epochTurn fuel alive k st with
    | error e => rw [ht] at h; cases h
    | ok st1 =>
      rw [ht] at h
      have hrest := ih (fun x hx => hks x (List.mem_cons_of_mem _ hx)) st1 h
      rcases epochTurn_match fuel alive hn k st st1 (hks k (List.mem_cons_self _ _)) ht with
        he | ⟨r, i, j, -, h0, hlt, hne, ek, ej, -, -, hij, hi, hj, he⟩
      · rw [← he]; exact hrest
      · refine MatchSequence.next _ st1.1 _ ⟨r.2, k, r.1.toNat, i, j, ek, ej, by omega, hij,
          hi, hj, by rw [he]⟩ hrest

/-- C18: in an epoch on `players`, with the snapshot `aliveIndices players`,
a turn either plays no match or plays exactly one match, between the
snapshot entries `i` (index `k`, the initiator) and `j` (the drawn index,
in range and different from `k`); `i` and `j` are distinct members of the
snapshot and both have positive energy in the state in which the match is
played.  The whole epoch is a sequence of such matches. -/
theorem match_participants (fuel : Nat) (players : List Player) :
    (∀ k st res, k < (aliveIndices players).length →
      epochTurn fuel (aliveIndices players) k st = Except.ok res →
      res.1 = st.1 ∨
      ∃ (r : Int × Mt19937) (i j : Nat),
        pickOpponent fuel st.2 (aliveIndices players).length k = Except.ok r ∧
        0 ≤ r.1 ∧ r.1 < (aliveIndices players).length ∧ r.1 ≠ k ∧
        (aliveIndices players)[k]? = some i ∧ (aliveIndices players)[r.1.toNat]? = some j ∧
        i ∈ aliveIndices players ∧ j ∈ aliveIndices players ∧ i ≠ j ∧
        0 < (getPlayer st.1 i).getEnergy ∧ 0 < (getPlayer st.1 j).getEnergy ∧
        res = playMatch st.1 r.2 i j) ∧
    (∀ mt res, runEpoch fuel players mt = Except.ok res →
      MatchSequence (aliveIndices players) players res.1) := by
  refine ⟨fun k st res hk h =>
    epochTurn_match fuel _ (aliveIndices_nodup players) k st res hk h, fun mt res h => ?_⟩
  unfold runEpoch at h
  simp only at h
  split at h
  · cases h; exact MatchSequence.done _
  · exact epochLoop_sequence fuel _ (aliveIndices_nodup players) _
      (fun k hk => List.mem_range.mp hk) (players, mt) res h

/-- Witness for C18: the first turn of an epoch on four players, one of them
eliminated, and the whole epoch. -/
theorem match_participants_witness :
    (∃ res, epochTurn 2 (aliveIndices fourPlayers) 0 (fourPlayers, countingMt) = Except.ok res ∧
      (res.1 = fourPlayers ∨
        ∃ (r : Int × Mt19937) (i j : Nat),
          pickOpponent 2 countingMt (aliveIndices fourPlayers).length 0 = Except.ok r ∧
          0 ≤ r.1 ∧ r.1 < (aliveIndices fourPlayers).length ∧ r.1 ≠ 0 ∧
          (aliveIndices fourPlayers)[0]? = some i ∧
          (aliveIndices fourPlayers)[r.1.toNat]? = some j ∧
          i ∈ aliveIndices fourPlayers ∧ j ∈ aliveIndices fourPlayers ∧ i ≠ j ∧
          0 < (getPlayer fourPlayers i).getEnergy ∧ 0 < (getPlayer fourPlayers j).getEnergy ∧
          res = playMatch fourPlayers r.2 i j)) ∧
    (∃ res, runEpoch 2 fourPlayers countingMt = Except.ok res ∧
      MatchSequence (aliveIndices fourPlayers) fourPlayers res.1) :=
  ⟨⟨_, rfl, (match_participants 2 fourPlayers).1 0 (fourPlayers, countingMt) _ (by decide) rfl⟩,
    ⟨_, rfl, (match_participants 2 fourPlayers).2 countingMt _ rfl⟩⟩

theorem historiesBounded_modify (players : List Player) (i : Nat) (f : Player → Player)
    (hf : ∀ p : Player, (∀ e ∈ p.opponentHistory, e.2.length ≤ 5) →
      ∀ e ∈ (f p).opponentHistory, e.2.length ≤ 5)
    (h : HistoriesBounded players) : HistoriesBounded (modifyPlayer players i f) := by
  intro q
  rw [getPlayer_modifyPlayer]
  split
  · exact hf _ (h q)
  · exact h q

theorem update_bounded (p : Player) (o m : Int)
    (hp : ∀ e ∈ p.opponentHistory, e.2.length ≤ 5) :
    ∀ e ∈ (p.updateOpponentInfo o m).opponentHistory, e.2.length ≤ 5 := by
  intro e he
  unfold Player.updateOpponentInfo at he
  simp only at he
  rcases mapStore_mem _ _ _ _ he with h1 | h1
  · rw [h1]
    have hold : ((mapFind p.opponentHistory o).getD []).length ≤ 5 := by
      cases hf : mapFind p.opponentHistory o with
      | none => simp
      | some h => exact hp _ (mapFind_mem _ _ _ hf)
    exact trimFront_length _ (by simp; omega)
  · exact hp e h1

theorem historiesBounded_playMatch (players : List Player) (mt : Mt19937) (i j : Nat)
    (h : HistoriesBounded players) : HistoriesBounded (playMatch players mt i j).1 := by
  unfold playMatch
  simp only
  refine historiesBounded_modify _ _ _ (fun p hp => ?_) ?_
  · exact hp
  refine historiesBounded_modify _ _ _ (fun p hp => ?_) ?_
  · exact hp
  refine historiesBounded_modify _ _ _ (fun p hp => ?_) ?_
  · exact update_bounded p _ _ hp
  refine historiesBounded_modify _ _ _ (fun p hp => ?_) ?_
  · exact update_bounded p _ _ hp
  refine historiesBounded_modify _ _ _ (fun p hp => ?_) ?_
  · exact hp
  refine historiesBounded_modify _ _ _ (fun p hp => ?_) ?_
  · exact hp
  exact h

/-- In a constructed population, after any number of epochs and any further
turns of the next epoch, every history returned by `getHistoryOfOpponent`
has at most 5 entries. -/
theorem histories_bounded (c : Config) (players : List Player)
    (hc : initPlayers c = Except.ok players)
    (fuel n : Nat) (mt : Mt19937) (st : List Player × Mt19937)
    (hrun : runEpochs fuel n players mt = Except.ok st)
    (alive ks : List Nat) (res : List Player × Mt19937)
    (hl : epochLoop fuel alive ks st = Except.ok res) (q : Nat) (o : Int) :
    ((getPlayer res.1 q).getHistoryOfOpponent o).length ≤ 5 := by
  have hp : players = createPlayers c := by
    unfold initPlayers at hc
    split at hc
    · cases hc
    · cases hc; rfl
  have h0 : HistoriesBounded players := by
    rw [hp]
    intro q e he
    by_cases hq : q < (createPlayers c).length
    · rw [(createPlayers_fresh c q hq).2.2.2] at he
      simp at he
    · have : getPlayer (createPlayers c) q = Player.Player 0 Strategy.COOPERATION 0 := by
        simp [getPlayer, List.getD_eq_getElem?_getD, List.getElem?_eq_none (not_lt.mp hq)]
      rw [this] at he
      simp [Player.Player] at he
  have h1 : HistoriesBounded st.1 :=
    runEpochs_lift (fun a b => HistoriesBounded a → HistoriesBounded b)
      (fun _ h => h) (fun _ _ _ f g h => g (f h))
      (fun ps g i j _ _ h => historiesBounded_playMatch ps g i j h)
      fuel n players mt st hrun h0
  have h2 : HistoriesBounded res.1 :=
    epochLoop_lift (fun a b => HistoriesBounded a → HistoriesBounded b)
      (fun _ h => h) (fun _ _ _ f g h => g (f h))
      (fun ps g i j _ _ h => historiesBounded_playMatch ps g i j h)
      fuel alive ks st res hl h1
  unfold Player.getHistoryOfOpponent
  cases hf : mapFind (getPlayer res.1 q).opponentHistory o with
  | none => simp
  | some h => exact h2 q _ (mapFind_mem _ _ _ hf)

end PrisonersDilemma
